import Mathlib

/-!
Shallow embedding of the Go package `structmap` (file `structmap.go`) and a
verification of its specification.

The package exposes one algorithm: `StructToMap(data, tag, method)` converts a
struct (or pointer to struct) into a `map[string]interface{}`, driven by
per-field struct tags (`tagsReader`), an optional per-value override method
invoked by reflection (`assignValueWithMethod` / `callFunc`), and a kind
switch with recursive descent into nested structs (dive / dotted / submap
composition).

Modelling choices, stated once here:

* Go runtime values reachable through `reflect` are modelled by the inductive
  `GoValue`.  Each value carries the method table of its type (name, number of
  declared inputs besides the receiver, and the outputs that invoking the
  method on this receiver returns); methods are modelled as non-variadic.
* Machine integers never overflow in this code (the only conversions are the
  widening `Value.Int() / Uint() / Float() / Complex()`), so signed values are
  `Int`, unsigned are `Nat`, each paired with its declared bit width.
  Floating-point payloads are opaque tokens (`Nat`); the code never computes
  with them, and float32 → float64 widening is exact, so widening is the
  identity on the token.  The token `0` denotes the zero value `+0.0`.
* `map[string]interface{}` is modelled by `Smap`, an association list kept
  strictly sorted by key: Go maps are identified by their contents, and the
  sorted list is a canonical representative.  A `range` over a Go map visits
  entries in an unspecified order; this is modelled by an `Oracle` that
  reorders the entry list, applied at each `range` site.
* Go `error` returns and Go panics are distinct outcomes (`Outcome.err`
  versus `Outcome.panicked`).
-/

namespace Structmap

/-- Bit widths of Go's signed integer kinds (`int`, `int8` … `int64`). -/
inductive IntW : Type where
  | iNative | i8 | i16 | i32 | i64
deriving DecidableEq

/-- Bit widths of Go's unsigned integer kinds (`uint`, `uint8` … `uint64`). -/
inductive UintW : Type where
  | uNative | u8 | u16 | u32 | u64
deriving DecidableEq

/-- Go's floating point kinds (`float32`, `float64`). -/
inductive FloatW : Type where
  | f32 | f64
deriving DecidableEq

/-- Go's complex kinds (`complex64`, `complex128`). -/
inductive ComplexW : Type where
  | c64 | c128
deriving DecidableEq

/-- The container kinds grouped by line 115 of the source:
`reflect.Slice, reflect.Array, reflect.Map, reflect.Chan`. -/
inductive ContainerKind : Type where
  | slice | array | mapping | chan
deriving DecidableEq

mutual

/-- A Go runtime value as observed through `reflect.Value`.

Every constructor carries the `MethodTable` of the value's type (used by
`reflect.Type.MethodByName` / `reflect.Value.MethodByName`), except
`vInvalid`, the zero `reflect.Value` (obtained from `reflect.ValueOf(nil)`),
which has no type.  Containers (`vContainer`) carry their nil-ness and an
opaque payload identifier: the source never inspects their contents.
`vFunc` and `vUnsafePtr` likewise carry nil-ness and an opaque identifier. -/
inductive GoValue : Type where
  | vStruct : List GoField → MethodTable → GoValue
  | vPointer : Option GoValue → MethodTable → GoValue
  | vInt : IntW → Int → MethodTable → GoValue
  | vUint : UintW → Nat → MethodTable → GoValue
  | vFloat : FloatW → Nat → MethodTable → GoValue
  | vComplex : ComplexW → Nat → Nat → MethodTable → GoValue
  | vString : String → MethodTable → GoValue
  | vBool : Bool → MethodTable → GoValue
  | vContainer : ContainerKind → Bool → Nat → MethodTable → GoValue
  | vIface : Option GoValue → MethodTable → GoValue
  | vFunc : Bool → Nat → MethodTable → GoValue
  | vUintptr : Nat → MethodTable → GoValue
  | vUnsafePtr : Bool → Nat → MethodTable → GoValue
  | vInvalid : GoValue

/-- One field of a struct type together with its value in a given struct:
name, exported flag (`PkgPath == ""`), the parsed tag pairs of its
`reflect.StructTag` (namespace, raw value — `StructTag.Lookup` returns the
first pair with the requested namespace), and the field's value. -/
inductive GoField : Type where
  | mk : String → Bool → List (String × String) → GoValue → GoField

/-- A method as far as this code observes it: the number of declared inputs
(besides the receiver) and the outputs that `Call` returns on this receiver. -/
inductive GoMethod : Type where
  | mk : Nat → List GoValue → GoMethod

/-- The method table of a value's type, keyed by method name. -/
inductive MethodTable : Type where
  | mk : List (String × GoMethod) → MethodTable

end

/-- `reflect.Type.MethodByName`: look a method up by name. -/
def MethodTable.find : MethodTable → String → Option GoMethod
  | .mk l, name => l.lookup name

/-- Field name (`StructField.Name`). -/
def GoField.fname : GoField → String
  | .mk n _ _ _ => n

/-- Whether the field is exported (`StructField.PkgPath == ""`). -/
def GoField.exported : GoField → Bool
  | .mk _ e _ _ => e

/-- The parsed (namespace, raw value) pairs of the field's tag. -/
def GoField.tags : GoField → List (String × String)
  | .mk _ _ tg _ => tg

/-- The field's value. -/
def GoField.fval : GoField → GoValue
  | .mk _ _ _ v => v

/-- The method table of a value's type; the zero `reflect.Value` has none. -/
def GoValue.methods : GoValue → MethodTable
  | .vStruct _ ms => ms
  | .vPointer _ ms => ms
  | .vInt _ _ ms => ms
  | .vUint _ _ ms => ms
  | .vFloat _ _ ms => ms
  | .vComplex _ _ _ ms => ms
  | .vString _ ms => ms
  | .vBool _ ms => ms
  | .vContainer _ _ _ ms => ms
  | .vIface _ ms => ms
  | .vFunc _ _ ms => ms
  | .vUintptr _ ms => ms
  | .vUnsafePtr _ _ ms => ms
  | .vInvalid => .mk []

/-- `reflect.Kind.String()` for the kind of a value, as used in the two
error messages of the source. -/
def kindString : GoValue → String
  | .vStruct _ _ => "struct"
  | .vPointer _ _ => "ptr"
  | .vInt .iNative _ _ => "int"
  | .vInt .i8 _ _ => "int8"
  | .vInt .i16 _ _ => "int16"
  | .vInt .i32 _ _ => "int32"
  | .vInt .i64 _ _ => "int64"
  | .vUint .uNative _ _ => "uint"
  | .vUint .u8 _ _ => "uint8"
  | .vUint .u16 _ _ => "uint16"
  | .vUint .u32 _ _ => "uint32"
  | .vUint .u64 _ _ => "uint64"
  | .vFloat .f32 _ _ => "float32"
  | .vFloat .f64 _ _ => "float64"
  | .vComplex .c64 _ _ _ => "complex64"
  | .vComplex .c128 _ _ _ => "complex128"
  | .vString _ _ => "string"
  | .vBool _ _ => "bool"
  | .vContainer .slice _ _ _ => "slice"
  | .vContainer .array _ _ _ => "array"
  | .vContainer .mapping _ _ _ => "map"
  | .vContainer .chan _ _ _ => "chan"
  | .vIface _ _ => "interface"
  | .vFunc _ _ _ => "func"
  | .vUintptr _ _ => "uintptr"
  | .vUnsafePtr _ _ _ => "unsafe.Pointer"
  | .vInvalid => "invalid"

mutual

/-- `reflect.Value.IsZero` (line 95): a struct is zero when all its fields
are zero; a pointer, interface, func, chan, map or slice is zero when nil;
scalars are zero when equal to their type's zero value. -/
def GoValue.isZero : GoValue → Bool
  | .vStruct fs _ => fieldsAreZero fs
  | .vPointer o _ => o.isNone
  | .vInt _ n _ => n == 0
  | .vUint _ n _ => n == 0
  | .vFloat _ bits _ => bits == 0
  | .vComplex _ re im _ => re == 0 && im == 0
  | .vString s _ => s == ""
  | .vBool b _ => b == false
  | .vContainer _ isNil _ _ => isNil
  | .vIface o _ => o.isNone
  | .vFunc isNil _ _ => isNil
  | .vUintptr n _ => n == 0
  | .vUnsafePtr isNil _ _ => isNil
  | .vInvalid => true

/-- All fields of a struct are zero (including unexported ones). -/
def fieldsAreZero : List GoField → Bool
  | [] => true
  | .mk _ _ _ v :: fs => GoValue.isZero v && fieldsAreZero fs

end

/-- A generic value as stored into the output `map[string]interface{}`. -/
inductive GenValue : Type where
  | gReflect : GoValue → GenValue
  | gMap : List (String × GenValue) → GenValue
  | gInt64 : Int → GenValue
  | gUint64 : Nat → GenValue
  | gFloat64 : Nat → GenValue
  | gComplex128 : Nat → Nat → GenValue
  | gString : String → GenValue
  | gBool : Bool → GenValue
  | gGo : GoValue → GenValue
  | gNil : GenValue

/-- `reflect.Value.Interface()`: the `interface{}` holding the value.  On an
interface-kind value it returns the dynamic value it holds (or the nil
interface); on any other value it wraps the concrete value. -/
def GoValue.interfaceOf : GoValue → GenValue
  | .vIface (some w) _ => .gGo w
  | .vIface none _ => .gNil
  | .vStruct fs ms => .gGo (.vStruct fs ms)
  | .vPointer o ms => .gGo (.vPointer o ms)
  | .vInt w n ms => .gGo (.vInt w n ms)
  | .vUint w n ms => .gGo (.vUint w n ms)
  | .vFloat w b ms => .gGo (.vFloat w b ms)
  | .vComplex w re im ms => .gGo (.vComplex w re im ms)
  | .vString s ms => .gGo (.vString s ms)
  | .vBool b ms => .gGo (.vBool b ms)
  | .vContainer ck b p ms => .gGo (.vContainer ck b p ms)
  | .vFunc b p ms => .gGo (.vFunc b p ms)
  | .vUintptr n ms => .gGo (.vUintptr n ms)
  | .vUnsafePtr b p ms => .gGo (.vUnsafePtr b p ms)
  | .vInvalid => .gGo .vInvalid

/-- Strict lexicographic order on character lists by code point, used only
to keep the canonical `Smap` representative sorted (a Go map has no order,
so any fixed total order on keys gives a canonical contents
representative). -/
def charsLt : List Char → List Char → Bool
  | [], [] => false
  | [], _ :: _ => true
  | _ :: _, [] => false
  | a :: as, b :: bs =>
    if a.toNat < b.toNat then true
    else if b.toNat < a.toNat then false
    else charsLt as bs

/-- The canonical key order on strings. -/
def keyLt (a b : String) : Bool := charsLt a.data b.data

/-- The model of `MappedStruct = map[string]interface{}`: an association list
kept strictly sorted by key, as a canonical representative of the map's
contents. -/
abbrev Smap := List (String × GenValue)

/-- `result[key] = value`: insert or overwrite, keeping the list sorted. -/
def Smap.insert : Smap → String → GenValue → Smap
  | [], k, v => [(k, v)]
  | (k1, v1) :: t, k, v =>
    if keyLt k k1 then (k, v) :: (k1, v1) :: t
    else if k = k1 then (k, v) :: t
    else (k1, v1) :: Smap.insert t k v

/-- Map lookup, `m[k]`. -/
def Smap.find : Smap → String → Option GenValue
  | [], _ => none
  | (k1, v1) :: t, k => if k = k1 then some v1 else Smap.find t k

/-- The key set of a map (as the list of keys of the representative). -/
def Smap.keys (m : Smap) : List String := m.map Prod.fst

/-- The representation invariant of `Smap`: strictly sorted by key. -/
def Smap.Sorted (m : Smap) : Prop := m.Pairwise (fun a b => keyLt a.1 b.1 = true)

/-- A `range` order oracle: how Go enumerates the entries of a map.  A valid
oracle returns a permutation of the entries (`ValidOracle`). -/
abbrev Oracle := List (String × GenValue) → List (String × GenValue)

/-- The identity oracle (one admissible `range` order). -/
def ordId : Oracle := id

/-- An oracle is valid when it only reorders the entries. -/
def ValidOracle (ord : Oracle) : Prop := ∀ l, List.Perm (ord l) l

/-- Go errors returned by the source (`fmt.Errorf`), by shape:
`"%s is a nil pointer"`, `"data is not a struct but %s"`,
`"wrong method %s, should have 2 output: (string,interface{})"`,
`"wrong method %s, first output should be string"`. -/
inductive GoError : Type where
  | nilInput : String → GoError
  | notAStruct : String → GoError
  | badOverrideCount : String → GoError
  | badOverrideFirst : String → GoError
deriving DecidableEq

/-- The outcome of running a piece of Go code that returns `(α, error)`:
a value, an error, or a runtime panic (which is not an `error` return). -/
inductive Outcome (α : Type) : Type where
  | ok : α → Outcome α
  | err : GoError → Outcome α
  | panicked : String → Outcome α
deriving DecidableEq

/-- The option constants of lines 11-17. -/
def OPTION_IGNORE : String := "-"

/-- Tag option word `omitempty`. -/
def OPTION_OMITEMPTY : String := "omitempty"

/-- Tag option word `dive`. -/
def OPTION_DIVE : String := "dive"

/-- Tag option word `wildcard`. -/
def OPTION_WILDCARD : String := "wildcard"

/-- Tag option word `dotted`. -/
def OPTION_DOTTED : String := "dotted"

/-- Flag bit `FLAG_IGNORE = 1 << 0` (lines 21-27). -/
def FLAG_IGNORE : Nat := 1

/-- Flag bit `FLAG_OMITEMPTY = 1 << 1`. -/
def FLAG_OMITEMPTY : Nat := 2

/-- Flag bit `FLAG_DIVE = 1 << 2`. -/
def FLAG_DIVE : Nat := 4

/-- Flag bit `FLAG_WILDCARD = 1 << 3`. -/
def FLAG_WILDCARD : Nat := 8

/-- Flag bit `FLAG_DOTTED = 1 << 4`. -/
def FLAG_DOTTED : Nat := 16

/-- Split a character list at every `','`, keeping empty segments: the
behaviour of Go's `strings.Split(s, ",")` on the underlying characters.
The result is never empty: splitting the empty string yields `[""]`. -/
def splitCommaChars : List Char → List (List Char)
  | [] => [[]]
  | c :: rest =>
    match splitCommaChars rest with
    | [] => if c = ',' then [[], []] else [[c]]
    | g :: gs => if c = ',' then [] :: g :: gs else (c :: g) :: gs

/-- `strings.Split(s, ",")` (line 173). -/
def splitComma (s : String) : List String :=
  (splitCommaChars s.data).map String.mk

/-- Lines 159-192, `tagsReader(structField, tag)`: look the chosen namespace
up in the field's tag; if absent return `("", FLAG_IGNORE)`; otherwise split
the raw value on `","`, take the first token as the key, and fold over ALL
tokens (the loop at line 176 starts at index 0), OR-ing in the flag of every
token equal to one of the five option constants; other tokens fall through
the switch unchanged.  `strings.Split` of `""` yields `[""]`, so the token
list is never empty.  `optionStep` is the switch in the loop body
(lines 177-188). -/
def optionStep (f : Nat) (o : String) : Nat :=
  if o = OPTION_IGNORE then f ||| FLAG_IGNORE
  else if o = OPTION_OMITEMPTY then f ||| FLAG_OMITEMPTY
  else if o = OPTION_DIVE then f ||| FLAG_DIVE
  else if o = OPTION_WILDCARD then f ||| FLAG_WILDCARD
  else if o = OPTION_DOTTED then f ||| FLAG_DOTTED
  else f

/-- The rest of `tagsReader` (see the doc comment on `optionStep` above for
lines 159-192 as a whole): namespace lookup, comma split, first token as
key, and the flag fold over all tokens. -/
def tagsReader (structField : List (String × String)) (tag : String) :
    String × Nat :=
  match structField.lookup tag with
  | none => ("", FLAG_IGNORE)
  | some tagValue =>
    let opts := splitComma tagValue
    let fTag := opts.headD ""
    (fTag, opts.foldl optionStep 0)

/-- Lines 214-227, `callFunc(reflectedValue, method)`: invoke the method by
name with no arguments.  `MethodByName` on a missing name yields the zero
`Value`, whose `Call` panics; `Call` with an empty argument list panics when
the method declares inputs.  Then: a result count other than 2 is the
"should have 2 output" error; a first result whose kind is not `String` is
the "first output should be string" error; otherwise the key is
`results[0].String()` and the value is `results[1].Interface()`. -/
def callFunc (v : GoValue) (method : String) : Outcome (String × GenValue) :=
  match MethodTable.find (GoValue.methods v) method with
  | none => .panicked "reflect: call of reflect.Value.Call on zero Value"
  | some (.mk numIn results) =>
    if numIn ≠ 0 then .panicked "reflect: Call with too few input arguments"
    else
      match results with
      | [r0, r1] =>
        match r0 with
        | .vString s _ => .ok (s, GoValue.interfaceOf r1)
        | _ => .err (.badOverrideFirst method)
      | _ => .err (.badOverrideCount method)

/-- Lines 194-210, `assignValueWithMethod(reflectedValue, method)`: empty
method name or a name not found by `Type().MethodByName` is a no-op
`("", nil, nil)`; otherwise the method is called via `callFunc` and its
error, if any, is passed through. -/
def assignValueWithMethod (v : GoValue) (method : String) :
    Outcome (String × GenValue) :=
  if method = "" then .ok ("", .gNil)
  else
    match MethodTable.find (GoValue.methods v) method with
    | none => .ok ("", .gNil)
    | some _ =>
      match callFunc v method with
      | .ok kv => .ok kv
      | .err e => .err e
      | .panicked s => .panicked s

mutual

/-- Depth measure of a value used as default recursion fuel: the recursion
of line 118 only descends through field values (after one pointer
dereference per field), so any fuel of at least `GoValue.size data` behaves
identically (`goSM_fuel_irrel` below).  Method tables are not measured: the
override hook never recurses. -/
def GoValue.size : GoValue → Nat
  | .vStruct fs _ => goFieldsSize fs + 1
  | .vPointer none _ => 1
  | .vPointer (some w) _ => GoValue.size w + 1
  | .vIface none _ => 1
  | .vIface (some w) _ => GoValue.size w + 1
  | .vInt _ _ _ => 1
  | .vUint _ _ _ => 1
  | .vFloat _ _ _ => 1
  | .vComplex _ _ _ _ => 1
  | .vString _ _ => 1
  | .vBool _ _ => 1
  | .vContainer _ _ _ _ => 1
  | .vFunc _ _ _ => 1
  | .vUintptr _ _ => 1
  | .vUnsafePtr _ _ _ => 1
  | .vInvalid => 1

/-- Size of one field: its value plus one. -/
def GoField.size : GoField → Nat
  | .mk _ _ _ v => GoValue.size v + 1

/-- Summed size of a field list. -/
def goFieldsSize : List GoField → Nat
  | [] => 0
  | f :: fs => GoField.size f + goFieldsSize fs

end

/-- The field loop of lines 81-152: process each field in declaration order
with the per-field body `step`, threading the result map; any error or panic
aborts the loop (the `return nil, err` statements at lines 107 and 120). -/
def structLoop (step : GoField → Smap → Outcome Smap) :
    List GoField → Smap → Outcome Smap
  | [], result => .ok result
  | f :: rest, result =>
    match step f result with
    | .ok r => structLoop step rest r
    | .err e => .err e
    | .panicked s => .panicked s

/-- Lines 105-151 for a resolved field value; `recur` is the recursive call
`StructToMap(fieldValue.Interface(), tag, method)` of line 118 with `tag`
and `method` already applied.  First the override hook (105: on error
`return nil, err`; 109-112: a non-empty key writes `result[key] = value` and
ends the iteration); then the kind switch (114-151).  Containers are stored
as the raw `reflect.Value` (116).  A struct field is converted by `recur`;
its error aborts (119-121), and its result is composed per `FLAG_DIVE`
(122-125, merge every entry in `range` order), `FLAG_DOTTED` (126-129, merge
every entry under `tagVal + "." + k`), or stored as a submap (130-131).
Numeric kinds are widened (`Int()`, `Uint()`, `Float()`, `Complex()`),
strings are wrapped in `%` under `FLAG_WILDCARD`, bools pass through,
interfaces are stored via `Interface()`.  Kinds with no case in the switch
(pointer, func, uintptr, unsafe pointer) fall through and write nothing. -/
def dispatchValue (recur : GoValue → Outcome Smap) (ord : Oracle)
    (m tagVal : String) (flag : Nat) (fv : GoValue) (result : Smap) :
    Outcome Smap :=
  match assignValueWithMethod fv m with
  | .err e => .err e
  | .panicked s => .panicked s
  | .ok (key, value) =>
    if key ≠ "" then .ok (Smap.insert result key value)
    else
      match fv with
      | .vContainer ck isNil pid ms =>
        .ok (Smap.insert result tagVal (.gReflect (.vContainer ck isNil pid ms)))
      | .vStruct gs gms =>
        match recur (.vStruct gs gms) with
        | .err e => .err e
        | .panicked s => .panicked s
        | .ok deepRes =>
          if flag &&& FLAG_DIVE ≠ 0 then
            .ok ((ord deepRes).foldl (fun r kv => Smap.insert r kv.1 kv.2) result)
          else if flag &&& FLAG_DOTTED ≠ 0 then
            .ok ((ord deepRes).foldl
              (fun r kv => Smap.insert r (tagVal ++ "." ++ kv.1) kv.2) result)
          else
            .ok (Smap.insert result tagVal (.gMap deepRes))
      | .vInt _ n _ => .ok (Smap.insert result tagVal (.gInt64 n))
      | .vUint _ n _ => .ok (Smap.insert result tagVal (.gUint64 n))
      | .vFloat _ bits _ => .ok (Smap.insert result tagVal (.gFloat64 bits))
      | .vString s _ =>
        if flag &&& FLAG_WILDCARD ≠ 0 then
          .ok (Smap.insert result tagVal (.gString ("%" ++ s ++ "%")))
        else
          .ok (Smap.insert result tagVal (.gString s))
      | .vBool b _ => .ok (Smap.insert result tagVal (.gBool b))
      | .vComplex _ re im _ =>
        .ok (Smap.insert result tagVal (.gComplex128 re im))
      | .vIface o ms =>
        .ok (Smap.insert result tagVal (GoValue.interfaceOf (.vIface o ms)))
      | _ => .ok result

/-- The body of one iteration of the field loop: skip unexported fields
(lines 85-87); read the tag (line 89); skip on `FLAG_IGNORE` (90-92); skip
when `FLAG_OMITEMPTY` is set and the value is zero (95-97); skip a nil
pointer field and dereference a non-nil one once (98-103); then hand the
resolved value to `dispatchValue`. -/
def processOneField (recur : GoValue → Outcome Smap) (ord : Oracle)
    (t m : String) (f : GoField) (result : Smap) : Outcome Smap :=
  match f with
  | .mk _name exported tags v =>
    if exported = false then .ok result
    else
      match tagsReader tags t with
      | (tagVal, flag) =>
        if flag &&& FLAG_IGNORE ≠ 0 then .ok result
        else if flag &&& FLAG_OMITEMPTY ≠ 0 ∧ GoValue.isZero v = true then
          .ok result
        else
          match v with
          | .vPointer none _ => .ok result
          | .vPointer (some w) _ =>
            dispatchValue recur ord m tagVal flag w result
          | _ => dispatchValue recur ord m tagVal flag v result

/-- Lines 66-155, `StructToMap(data, tag, method)`, with explicit recursion
fuel (structurally decreasing at the nested call of line 118; the wrapper
`StructToMap` below supplies sufficient fuel, and `goSM_fuel_irrel` shows
any sufficient fuel gives the same outcome).  A nil pointer input is the
`"%s is a nil pointer"` error (the kind string is `"ptr"`); a pointer is
dereferenced once; a non-struct resolved value is the
`"data is not a struct but %s"` error; a struct is processed field by field
by `structLoop` starting from the empty map (line 67). -/
def goSM : Nat → Oracle → String → String → GoValue → Outcome Smap
  | 0, _, _, _, _ => .panicked "model: recursion fuel exhausted"
  | fuel + 1, ord, t, m, data =>
    match data with
    | .vPointer none _ => .err (.nilInput "ptr")
    | .vPointer (some w) _ =>
      match w with
      | .vStruct fs _ =>
        structLoop (processOneField (goSM fuel ord t m) ord t m) fs []
      | _ => .err (.notAStruct (kindString w))
    | .vStruct fs _ =>
      structLoop (processOneField (goSM fuel ord t m) ord t m) fs []
    | other => .err (.notAStruct (kindString other))

/-- Lines 66-155, `StructToMap(data, tag, method)`: the fueled model run
with sufficient fuel.  The Go recursion is bounded exactly when the value
tree is finite, which the inductive `GoValue` guarantees. -/
def StructToMap (ord : Oracle) (t m : String) (data : GoValue) :
    Outcome Smap :=
  goSM (GoValue.size data) ord t m data

/-- The per-field step of the loop of lines 81-152, with the recursive call
of line 118 being the top-level `StructToMap` itself (same namespace, same
override-method name): by `StructToMap_struct` below, `StructToMap` on a
struct is `structLoop` of this step. -/
def fieldStep (ord : Oracle) (t m : String) : GoField → Smap → Outcome Smap :=
  processOneField (StructToMap ord t m) ord t m

/-- Repeated insertion, the model of `for k, v := range l { m[k] = v }`. -/
def Smap.foldIns (m : Smap) (l : List (String × GenValue)) : Smap :=
  l.foldl (fun r kv => Smap.insert r kv.1 kv.2) m

/-- The single pointer dereference applied to a field value by lines
98-103: a nil pointer has no resolved value (the field is skipped), a
non-nil pointer resolves to its target, anything else resolves to itself. -/
def derefOnce : GoValue → Option GoValue
  | .vPointer none _ => none
  | .vPointer (some w) _ => some w
  | .vStruct fs ms => some (.vStruct fs ms)
  | .vInt w n ms => some (.vInt w n ms)
  | .vUint w n ms => some (.vUint w n ms)
  | .vFloat w b ms => some (.vFloat w b ms)
  | .vComplex w re im ms => some (.vComplex w re im ms)
  | .vString s ms => some (.vString s ms)
  | .vBool b ms => some (.vBool b ms)
  | .vContainer ck b p ms => some (.vContainer ck b p ms)
  | .vIface o ms => some (.vIface o ms)
  | .vFunc b p ms => some (.vFunc b p ms)
  | .vUintptr n ms => some (.vUintptr n ms)
  | .vUnsafePtr b p ms => some (.vUnsafePtr b p ms)
  | .vInvalid => some .vInvalid

/-- Whether a value has struct kind. -/
def isStructKind : GoValue → Bool
  | .vStruct _ _ => true
  | .vPointer _ _ => false
  | .vInt _ _ _ => false
  | .vUint _ _ _ => false
  | .vFloat _ _ _ => false
  | .vComplex _ _ _ _ => false
  | .vString _ _ => false
  | .vBool _ _ => false
  | .vContainer _ _ _ _ => false
  | .vIface _ _ => false
  | .vFunc _ _ _ => false
  | .vUintptr _ _ => false
  | .vUnsafePtr _ _ _ => false
  | .vInvalid => false

/-- Kinds with no case in the switch of lines 114-151 (after the single
dereference of lines 98-103): pointer (a pointer to a pointer survives the
single dereference), func, uintptr, unsafe pointer, and the invalid value. -/
def isUnhandledKind : GoValue → Bool
  | .vPointer _ _ => true
  | .vFunc _ _ _ => true
  | .vUintptr _ _ => true
  | .vUnsafePtr _ _ _ => true
  | .vInvalid => true
  | .vStruct _ _ => false
  | .vInt _ _ _ => false
  | .vUint _ _ _ => false
  | .vFloat _ _ _ => false
  | .vComplex _ _ _ _ => false
  | .vString _ _ => false
  | .vBool _ _ => false
  | .vContainer _ _ _ _ => false
  | .vIface _ _ => false

/-- The errors that the override hook can produce (the only `fmt.Errorf`
sites reachable from inside the field loop). -/
def OverrideErr (e : GoError) : Prop :=
  (∃ s, e = .badOverrideCount s) ∨ (∃ s, e = .badOverrideFirst s)

/-- The empty method table. -/
def mtEmpty : MethodTable := .mk []

/-- The inner record of the spec's two scenarios:
`struct { C string "json:c" }` with `C = "y"`. -/
def scInner : GoValue :=
  .vStruct [.mk "C" true [("json", "c")] (.vString "y" mtEmpty)] mtEmpty

/-- The outer record of the spec's two scenarios, parameterized by the tag
of its nested field `B`: `struct { AA string "json:aa"; B scInner "json:btag" }`
with `AA = "x"`. -/
def scRecord (btag : String) : GoValue :=
  .vStruct [.mk "AA" true [("json", "aa")] (.vString "x" mtEmpty),
            .mk "B" true [("json", btag)] scInner] mtEmpty

/-- A second admissible `range` order: reversed entry order. -/
def revOracle : Oracle := fun l => l.reverse

/-- Whether a value's kind is `reflect.String` (the check of line 219 on
the override method's first output). -/
def isStringKind : GoValue → Bool
  | .vString _ _ => true
  | .vStruct _ _ => false
  | .vPointer _ _ => false
  | .vInt _ _ _ => false
  | .vUint _ _ _ => false
  | .vFloat _ _ _ => false
  | .vComplex _ _ _ _ => false
  | .vBool _ _ => false
  | .vContainer _ _ _ _ => false
  | .vIface _ _ => false
  | .vFunc _ _ _ => false
  | .vUintptr _ _ => false
  | .vUnsafePtr _ _ _ => false
  | .vInvalid => false

/-- A value whose type exposes a zero-argument method `M` returning
`("custom", 42)` (the spec's override scenario). -/
def scOverride : GoValue :=
  .vInt .iNative 7
    (.mk [("M", .mk 0 [.vString "custom" mtEmpty, .vInt .iNative 42 mtEmpty])])

/-- A value whose type exposes a method `M` that takes one argument. -/
def scBadArity : GoValue := .vInt .iNative 5 (.mk [("M", .mk 1 [])])

/-! ### Properties of the canonical key order -/

theorem charsLt_cons_iff (a b : Char) (as bs : List Char) :
    charsLt (a :: as) (b :: bs) = true ↔
      (a.toNat < b.toNat ∨ (a.toNat = b.toNat ∧ charsLt as bs = true)) := by
  by_cases h : a.toNat < b.toNat
  · simp [charsLt, h]
  · by_cases h' : b.toNat < a.toNat
    · simp only [charsLt, if_neg h, if_pos h']
      constructor
      · intro hh; exact absurd hh (by simp)
      · rintro (hh | ⟨e, _⟩) <;> omega
    · have e : a.toNat = b.toNat := by omega
      simp [charsLt, h, h', e]

theorem charsLt_irrefl : ∀ l : List Char, charsLt l l = false
  | [] => rfl
  | _ :: as => by simp [charsLt, charsLt_irrefl as]

theorem charsLt_trans : ∀ (l1 l2 l3 : List Char), charsLt l1 l2 = true →
    charsLt l2 l3 = true → charsLt l1 l3 = true := by
  intro l1
  induction l1 with
  | nil =>
    intro l2 l3 _ h2
    cases l2 with
    | nil => cases l3 <;> simp [charsLt] at h2 ⊢
    | cons b bs =>
      cases l3 with
      | nil => simp [charsLt] at h2
      | cons c cs => simp [charsLt]
  | cons a as ih =>
    intro l2 l3 h1 h2
    cases l2 with
    | nil => simp [charsLt] at h1
    | cons b bs =>
      cases l3 with
      | nil => simp [charsLt] at h2
      | cons c cs =>
        rw [charsLt_cons_iff] at h1 h2 ⊢
        rcases h1 with h1 | ⟨e1, r1⟩ <;> rcases h2 with h2 | ⟨e2, r2⟩
        · exact Or.inl (by omega)
        · exact Or.inl (by omega)
        · exact Or.inl (by omega)
        · exact Or.inr ⟨by omega, ih bs cs r1 r2⟩

theorem charsLt_conn : ∀ (l1 l2 : List Char), charsLt l1 l2 = false →
    charsLt l2 l1 = false → l1 = l2 := by
  intro l1
  induction l1 with
  | nil =>
    intro l2 h1 _
    cases l2 with
    | nil => rfl
    | cons b bs => simp [charsLt] at h1
  | cons a as ih =>
    intro l2 h1 h2
    cases l2 with
    | nil => simp [charsLt] at h2
    | cons b bs =>
      have h1' : ¬ (a.toNat < b.toNat ∨ (a.toNat = b.toNat ∧ charsLt as bs = true)) := by
        rw [← charsLt_cons_iff]; simp [h1]
      have h2' : ¬ (b.toNat < a.toNat ∨ (b.toNat = a.toNat ∧ charsLt bs as = true)) := by
        rw [← charsLt_cons_iff]; simp [h2]
      have hab : ¬ a.toNat < b.toNat := fun h => h1' (Or.inl h)
      have hba : ¬ b.toNat < a.toNat := fun h => h2' (Or.inl h)
      have e : a.toNat = b.toNat := by omega
      have r1 : charsLt as bs = false := by
        cases hcl : charsLt as bs with
        | false => rfl
        | true => exact absurd (Or.inr ⟨e, hcl⟩) h1'
      have r2 : charsLt bs as = false := by
        cases hcl : charsLt bs as with
        | false => rfl
        | true => exact absurd (Or.inr ⟨e.symm, hcl⟩) h2'
      have hts : as = bs := ih bs r1 r2
      have ha : a = b := by
        have hc := congrArg Char.ofNat e
        rwa [Char.ofNat_toNat, Char.ofNat_toNat] at hc
      rw [ha, hts]

theorem keyLt_irrefl (a : String) : keyLt a a = false := charsLt_irrefl a.data

theorem keyLt_trans {a b c : String} (h1 : keyLt a b = true)
    (h2 : keyLt b c = true) : keyLt a c = true :=
  charsLt_trans _ _ _ h1 h2

theorem keyLt_conn {a b : String} (h1 : keyLt a b = false)
    (h2 : keyLt b a = false) : a = b :=
  String.ext (charsLt_conn _ _ h1 h2)

theorem keyLt_ne {a b : String} (h : keyLt a b = true) : a ≠ b := by
  intro e
  rw [e, keyLt_irrefl] at h
  exact absurd h (by simp)

theorem keyLt_asymm {a b : String} (h : keyLt a b = true) : keyLt b a = false := by
  cases hcl : keyLt b a with
  | false => rfl
  | true =>
    have := keyLt_trans h hcl
    rw [keyLt_irrefl] at this
    exact absurd this (by simp)

theorem keyLt_of_not {k k1 : String} (h1 : keyLt k k1 = false) (h2 : ¬ k = k1) :
    keyLt k1 k = true := by
  cases hcl : keyLt k1 k with
  | true => rfl
  | false => exact absurd (keyLt_conn h1 hcl) h2

/-! ### Properties of the map model -/

theorem Smap.find_insert_self : ∀ (m : Smap) (k : String) (v : GenValue),
    Smap.find (Smap.insert m k v) k = some v
  | [], k, v => by simp [Smap.insert, Smap.find]
  | (k1, v1) :: t, k, v => by
    by_cases h : keyLt k k1 = true
    · simp [Smap.insert, h, Smap.find]
    · by_cases h' : k = k1
      · subst h'
        simp [Smap.insert, h, keyLt_irrefl, Smap.find]
      · simp [Smap.insert, h, h', Smap.find, Smap.find_insert_self t k v]

theorem Smap.find_insert_ne : ∀ (m : Smap) {k k' : String} (v : GenValue),
    k' ≠ k → Smap.find (Smap.insert m k v) k' = Smap.find m k'
  | [], k, k', v, hne => by simp [Smap.insert, Smap.find, hne]
  | (k1, v1) :: t, k, k', v, hne => by
    by_cases h : keyLt k k1 = true
    · simp [Smap.insert, h, Smap.find, hne]
    · by_cases h' : k = k1
      · subst h'
        simp [Smap.insert, h, keyLt_irrefl, Smap.find, hne]
      · by_cases h'' : k' = k1
        · simp [Smap.insert, h, h', Smap.find, h'']
        · simp [Smap.insert, h, h', Smap.find, h'',
            Smap.find_insert_ne t v hne]

theorem Smap.mem_insert : ∀ (m : Smap) (k : String) (v : GenValue)
    (p : String × GenValue), p ∈ Smap.insert m k v → p = (k, v) ∨ p ∈ m
  | [], k, v, p, hp => by
    simp only [Smap.insert] at hp
    exact Or.inl (List.mem_singleton.mp hp)
  | (k1, v1) :: t, k, v, p, hp => by
    by_cases h : keyLt k k1 = true
    · simp only [Smap.insert, if_pos h, List.mem_cons] at hp
      rcases hp with hp | hp | hp
      · exact Or.inl hp
      · exact Or.inr (List.mem_cons.mpr (Or.inl hp))
      · exact Or.inr (List.mem_cons.mpr (Or.inr hp))
    · by_cases h' : k = k1
      · simp only [Smap.insert, if_neg h, if_pos h', List.mem_cons] at hp
        rcases hp with hp | hp
        · exact Or.inl hp
        · exact Or.inr (List.mem_cons.mpr (Or.inr hp))
      · simp only [Smap.insert, if_neg h, if_neg h', List.mem_cons] at hp
        rcases hp with hp | hp
        · exact Or.inr (List.mem_cons.mpr (Or.inl hp))
        · rcases Smap.mem_insert t k v p hp with hq | hq
          · exact Or.inl hq
          · exact Or.inr (List.mem_cons.mpr (Or.inr hq))

theorem Smap.mem_keys_insert : ∀ (m : Smap) (k : String) (v : GenValue)
    (k' : String), k' ∈ Smap.keys (Smap.insert m k v) ↔
      (k' = k ∨ k' ∈ Smap.keys m)
  | [], k, v, k' => by simp [Smap.insert, Smap.keys]
  | (k1, v1) :: t, k, v, k' => by
    by_cases h : keyLt k k1 = true
    · simp only [Smap.insert, if_pos h, Smap.keys, List.map_cons,
        List.mem_cons]
    · by_cases h' : k = k1
      · subst h'
        simp [Smap.insert, keyLt_irrefl, Smap.keys, List.mem_cons]
      · simp only [Smap.insert, if_neg h, if_neg h', Smap.keys,
          List.map_cons, List.mem_cons]
        have hrec := Smap.mem_keys_insert t k v k'
        simp only [Smap.keys] at hrec
        rw [hrec]
        tauto

theorem Smap.self_mem_keys_insert (m : Smap) (k : String) (v : GenValue) :
    k ∈ Smap.keys (Smap.insert m k v) :=
  (Smap.mem_keys_insert m k v k).mpr (Or.inl rfl)

theorem Smap.insert_sorted : ∀ {m : Smap} (k : String) (v : GenValue),
    Smap.Sorted m → Smap.Sorted (Smap.insert m k v)
  | [], k, v, _ => by simp [Smap.insert, Smap.Sorted]
  | (k1, v1) :: t, k, v, hs => by
    rw [Smap.Sorted, List.pairwise_cons] at hs
    obtain ⟨hhead, htail⟩ := hs
    by_cases h : keyLt k k1 = true
    · simp only [Smap.insert, if_pos h]
      rw [Smap.Sorted, List.pairwise_cons]
      refine ⟨?_, ?_⟩
      · intro p hp
        rcases List.mem_cons.mp hp with hp | hp
        · rw [hp]; exact h
        · exact keyLt_trans h (hhead p hp)
      · rw [List.pairwise_cons]
        exact ⟨hhead, htail⟩
    · by_cases h' : k = k1
      · subst h'
        simp only [Smap.insert, if_neg h, eq_self_iff_true, if_true]
        rw [Smap.Sorted, List.pairwise_cons]
        exact ⟨hhead, htail⟩
      · simp only [Smap.insert, if_neg h, if_neg h']
        rw [Smap.Sorted, List.pairwise_cons]
        refine ⟨?_, Smap.insert_sorted k v htail⟩
        intro p hp
        rcases Smap.mem_insert t k v p hp with hp | hp
        · rw [hp]
          exact keyLt_of_not (Bool.eq_false_iff.mpr h) h'
        · exact hhead p hp

theorem Smap.sorted_keys_nodup {m : Smap} (hs : Smap.Sorted m) :
    (Smap.keys m).Nodup := by
  rw [Smap.keys, List.Nodup, List.pairwise_map]
  exact hs.imp fun h => keyLt_ne h

theorem Smap.find_eq_none_of_forall : ∀ (m : Smap) (k : String),
    (∀ p ∈ m, k ≠ p.1) → Smap.find m k = none
  | [], _, _ => rfl
  | (k1, v1) :: t, k, h => by
    have hne : k ≠ k1 := h (k1, v1) (List.mem_cons_self _ _)
    simp [Smap.find, hne, Smap.find_eq_none_of_forall t k
      (fun p hp => h p (List.mem_cons.mpr (Or.inr hp)))]

theorem Smap.find_head_lt {k1 : String} {v1 : GenValue} {t : Smap}
    (hs : Smap.Sorted ((k1, v1) :: t)) {k : String} (hk : keyLt k k1 = true) :
    Smap.find ((k1, v1) :: t) k = none := by
  apply Smap.find_eq_none_of_forall
  intro p hp
  rcases List.mem_cons.mp hp with hp | hp
  · rw [hp]; exact keyLt_ne hk
  · rw [Smap.Sorted, List.pairwise_cons] at hs
    exact keyLt_ne (keyLt_trans hk (hs.1 p hp))

theorem Smap.sorted_ext : ∀ (m1 m2 : Smap), Smap.Sorted m1 → Smap.Sorted m2 →
    (∀ k, Smap.find m1 k = Smap.find m2 k) → m1 = m2
  | [], [], _, _, _ => rfl
  | [], (k2, v2) :: t2, _, _, h => by
    have hx := h k2
    simp [Smap.find] at hx
  | (k1, v1) :: t1, [], _, _, h => by
    have hx := h k1
    simp [Smap.find] at hx
  | (k1, v1) :: t1, (k2, v2) :: t2, hs1, hs2, h => by
    have hk : k1 = k2 := by
      cases hlt : keyLt k1 k2 with
      | true =>
        have h1 := h k1
        rw [Smap.find_head_lt hs2 hlt] at h1
        simp [Smap.find] at h1
      | false =>
        cases hlt2 : keyLt k2 k1 with
        | true =>
          have h2 := h k2
          rw [Smap.find_head_lt hs1 hlt2] at h2
          simp [Smap.find] at h2
        | false => exact keyLt_conn hlt hlt2
    subst hk
    have hv : v1 = v2 := by
      have h1 := h k1
      simpa [Smap.find] using h1
    subst hv
    have hs1' := hs1
    have hs2' := hs2
    rw [Smap.Sorted, List.pairwise_cons] at hs1' hs2'
    have ht : t1 = t2 := by
      apply Smap.sorted_ext t1 t2 hs1'.2 hs2'.2
      intro k
      by_cases hkk : k = k1
      · subst hkk
        rw [Smap.find_eq_none_of_forall t1 k (fun p hp => keyLt_ne (hs1'.1 p hp)),
          Smap.find_eq_none_of_forall t2 k (fun p hp => keyLt_ne (hs2'.1 p hp))]
      · have hk := h k
        simpa [Smap.find, hkk] using hk
    rw [ht]

theorem Smap.insert_comm_sorted {m : Smap} (hs : Smap.Sorted m)
    {k1 k2 : String} (v1 v2 : GenValue) (hne : k1 ≠ k2) :
    Smap.insert (Smap.insert m k1 v1) k2 v2
      = Smap.insert (Smap.insert m k2 v2) k1 v1 := by
  apply Smap.sorted_ext _ _
    (Smap.insert_sorted _ _ (Smap.insert_sorted _ _ hs))
    (Smap.insert_sorted _ _ (Smap.insert_sorted _ _ hs))
  intro k
  by_cases h2 : k = k2
  · subst h2
    rw [Smap.find_insert_self, Smap.find_insert_ne _ _ (fun e => hne e.symm),
      Smap.find_insert_self]
  · rw [Smap.find_insert_ne _ _ h2]
    by_cases h1 : k = k1
    · subst h1
      rw [Smap.find_insert_self, Smap.find_insert_self]
    · rw [Smap.find_insert_ne _ _ h1, Smap.find_insert_ne _ _ h1,
        Smap.find_insert_ne _ _ h2]

theorem Smap.foldIns_cons (m : Smap) (kv : String × GenValue)
    (l : List (String × GenValue)) :
    Smap.foldIns m (kv :: l) = Smap.foldIns (Smap.insert m kv.1 kv.2) l := rfl

theorem Smap.foldIns_sorted : ∀ (l : List (String × GenValue)) {m : Smap},
    Smap.Sorted m → Smap.Sorted (Smap.foldIns m l)
  | [], _, hs => hs
  | _ :: l, _, hs => Smap.foldIns_sorted l (Smap.insert_sorted _ _ hs)

theorem Smap.mem_keys_foldIns : ∀ (l : List (String × GenValue)) {m : Smap}
    {k : String}, k ∈ Smap.keys m → k ∈ Smap.keys (Smap.foldIns m l)
  | [], _, _, h => h
  | kv :: l, m, k, h =>
    Smap.mem_keys_foldIns l
      ((Smap.mem_keys_insert m kv.1 kv.2 k).mpr (Or.inr h))

theorem Smap.find_foldIns_not_mem : ∀ (l : List (String × GenValue))
    (m : Smap) (k : String), k ∉ l.map Prod.fst →
    Smap.find (Smap.foldIns m l) k = Smap.find m k
  | [], _, _, _ => rfl
  | (k0, v0) :: l, m, k, h => by
    have h1 : k ∉ l.map Prod.fst := fun hx => h (by simp [hx])
    have h0 : k ≠ k0 := fun hx => h (by simp [hx])
    rw [Smap.foldIns_cons, Smap.find_foldIns_not_mem l _ k h1,
      Smap.find_insert_ne _ _ h0]

theorem Smap.find_foldIns_mem : ∀ (l : List (String × GenValue))
    (m : Smap) {k : String} {v : GenValue},
    (l.map Prod.fst).Nodup → (k, v) ∈ l →
    Smap.find (Smap.foldIns m l) k = some v
  | [], _, _, _, _, hm => by cases hm
  | (k0, v0) :: l, m, k, v, hnd, hm => by
    simp only [List.map_cons, List.nodup_cons] at hnd
    rcases List.mem_cons.mp hm with hm | hm
    · injection hm with e1 e2
      subst e1; subst e2
      rw [Smap.foldIns_cons, Smap.find_foldIns_not_mem l _ k hnd.1,
        Smap.find_insert_self]
    · rw [Smap.foldIns_cons, Smap.find_foldIns_mem l _ hnd.2 hm]

theorem Smap.mem_keys_foldIns_of_mem : ∀ (l : List (String × GenValue))
    (m : Smap) {k : String} {v : GenValue}, (k, v) ∈ l →
    k ∈ Smap.keys (Smap.foldIns m l)
  | [], _, _, _, hm => by cases hm
  | (k0, v0) :: l, m, k, v, hm => by
    rcases List.mem_cons.mp hm with hm | hm
    · injection hm with e1 e2
      subst e1
      rw [Smap.foldIns_cons]
      exact Smap.mem_keys_foldIns l (Smap.self_mem_keys_insert m k _)
    · rw [Smap.foldIns_cons]
      exact Smap.mem_keys_foldIns_of_mem l _ hm

theorem Smap.foldIns_perm {l1 l2 : List (String × GenValue)}
    (hp : List.Perm l1 l2) : ∀ (m : Smap), Smap.Sorted m →
    (l1.map Prod.fst).Nodup → Smap.foldIns m l1 = Smap.foldIns m l2 := by
  induction hp using List.Perm.recOnSwap' with
  | nil => intro m _ _; rfl
  | cons x h ih =>
    intro m hs hnd
    simp only [List.map_cons, List.nodup_cons] at hnd
    rw [Smap.foldIns_cons, Smap.foldIns_cons]
    exact ih _ (Smap.insert_sorted _ _ hs) hnd.2
  | swap' x y h ih =>
    intro m hs hnd
    simp only [List.map_cons, List.nodup_cons, List.mem_cons] at hnd
    have hxy : y.1 ≠ x.1 := fun e => hnd.1 (Or.inl e)
    rw [Smap.foldIns_cons, Smap.foldIns_cons, Smap.foldIns_cons,
      Smap.foldIns_cons, Smap.insert_comm_sorted hs y.2 x.2 hxy]
    exact ih _ (Smap.insert_sorted _ _ (Smap.insert_sorted _ _ hs)) hnd.2.2
  | trans h1 h2 ih1 ih2 =>
    intro m hs hnd
    rw [ih1 m hs hnd, ih2 m hs (((h1.map Prod.fst).nodup_iff).mp hnd)]

theorem dotted_fold_eq_foldIns (tagVal : String)
    (l : List (String × GenValue)) (m : Smap) :
    l.foldl (fun r kv => Smap.insert r (tagVal ++ "." ++ kv.1) kv.2) m
      = Smap.foldIns m (l.map (fun kv => (tagVal ++ "." ++ kv.1, kv.2))) := by
  rw [Smap.foldIns, List.foldl_map]

theorem string_append_inj_right {s a b : String} (h : s ++ a = s ++ b) :
    a = b := by
  apply String.ext
  have hd := congrArg String.data h
  rw [String.data_append, String.data_append] at hd
  exact List.append_cancel_left hd

theorem dotted_key_inj {tagVal a b : String}
    (h : tagVal ++ "." ++ a = tagVal ++ "." ++ b) : a = b :=
  string_append_inj_right h

/-! ### Properties of the field loop -/

theorem structLoop_cons (step : GoField → Smap → Outcome Smap) (f : GoField)
    (l : List GoField) (acc : Smap) :
    structLoop step (f :: l) acc =
      match step f acc with
      | .ok r => structLoop step l r
      | .err e => .err e
      | .panicked s => .panicked s := rfl

theorem structLoop_append (step : GoField → Smap → Outcome Smap) :
    ∀ (l1 l2 : List GoField) (acc : Smap),
    structLoop step (l1 ++ l2) acc =
      match structLoop step l1 acc with
      | .ok r => structLoop step l2 r
      | .err e => .err e
      | .panicked s => .panicked s
  | [], l2, acc => rfl
  | f :: l1, l2, acc => by
    rw [List.cons_append, structLoop_cons, structLoop_cons]
    cases step f acc with
    | ok r => exact structLoop_append step l1 l2 r
    | err e => rfl
    | panicked s => rfl

theorem structLoop_congr {step1 step2 : GoField → Smap → Outcome Smap} :
    ∀ {l : List GoField}, (∀ f ∈ l, ∀ acc, step1 f acc = step2 f acc) →
    ∀ (acc : Smap), structLoop step1 l acc = structLoop step2 l acc
  | [], _, _ => rfl
  | f :: l, h, acc => by
    rw [structLoop_cons, structLoop_cons, h f (List.mem_cons_self _ _) acc]
    cases step2 f acc with
    | ok r =>
      exact structLoop_congr (fun g hg => h g (List.mem_cons.mpr (Or.inr hg))) r
    | err e => rfl
    | panicked s => rfl

theorem structLoop_err {step : GoField → Smap → Outcome Smap} :
    ∀ {l : List GoField} {acc : Smap} {e : GoError},
    structLoop step l acc = .err e →
    ∃ f ∈ l, ∃ acc', step f acc' = .err e
  | [], _, _, h => by cases h
  | f :: l, acc, e, h => by
    rw [structLoop_cons] at h
    cases hstep : step f acc with
    | ok r =>
      rw [hstep] at h
      obtain ⟨g, hg, acc', hacc⟩ := structLoop_err (l := l) h
      exact ⟨g, List.mem_cons.mpr (Or.inr hg), acc', hacc⟩
    | err e' =>
      rw [hstep] at h
      injection h with h
      exact ⟨f, List.mem_cons_self _ _, acc, by rw [hstep, h]⟩
    | panicked s => rw [hstep] at h; cases h

/-! ### Fuel irrelevance: any fuel of at least `GoValue.size data` gives the
same outcome, so `StructToMap` is the fuel-free semantics of the source. -/

theorem GoValue.size_pos : ∀ v : GoValue, 1 ≤ GoValue.size v
  | .vStruct _ _ => Nat.le_add_left 1 _
  | .vPointer none _ => le_refl 1
  | .vPointer (some _) _ => Nat.le_add_left 1 _
  | .vIface none _ => le_refl 1
  | .vIface (some _) _ => Nat.le_add_left 1 _
  | .vInt _ _ _ => le_refl 1
  | .vUint _ _ _ => le_refl 1
  | .vFloat _ _ _ => le_refl 1
  | .vComplex _ _ _ _ => le_refl 1
  | .vString _ _ => le_refl 1
  | .vBool _ _ => le_refl 1
  | .vContainer _ _ _ _ => le_refl 1
  | .vFunc _ _ _ => le_refl 1
  | .vUintptr _ _ => le_refl 1
  | .vUnsafePtr _ _ _ => le_refl 1
  | .vInvalid => le_refl 1

theorem GoField.size_eq (n : String) (ex : Bool)
    (tg : List (String × String)) (v : GoValue) :
    GoField.size (.mk n ex tg v) = GoValue.size v + 1 := rfl

theorem goFieldsSize_mem {f : GoField} : ∀ {fs : List GoField}, f ∈ fs →
    GoField.size f ≤ goFieldsSize fs := by
  intro fs h
  induction fs with
  | nil => cases h
  | cons g gs ih =>
    rcases List.mem_cons.mp h with h | h
    · subst h
      simp only [goFieldsSize]
      omega
    · have := ih h
      simp only [goFieldsSize]
      omega

theorem dispatchValue_congr {recur1 recur2 : GoValue → Outcome Smap}
    (ord : Oracle) (m tagVal : String) (flag : Nat) (fv : GoValue)
    (result : Smap) (h : recur1 fv = recur2 fv) :
    dispatchValue recur1 ord m tagVal flag fv result
      = dispatchValue recur2 ord m tagVal flag fv result := by
  cases fv <;> simp only [dispatchValue, h]

theorem processOneField_congr {recur1 recur2 : GoValue → Outcome Smap}
    (ord : Oracle) (t m : String) (f : GoField) (result : Smap)
    (h : ∀ w, GoValue.size w < GoField.size f → recur1 w = recur2 w) :
    processOneField recur1 ord t m f result
      = processOneField recur2 ord t m f result := by
  obtain ⟨n, ex, tg, v⟩ := f
  simp only [processOneField]
  rcases htr : tagsReader tg t with ⟨tv, fl⟩
  by_cases hex : ex = false
  · simp [hex]
  · simp only [if_neg hex, htr]
    by_cases hig : fl &&& FLAG_IGNORE ≠ 0
    · simp [hig]
    · simp only [if_neg hig]
      by_cases hom : fl &&& FLAG_OMITEMPTY ≠ 0 ∧ GoValue.isZero v = true
      · simp [hom]
      · simp only [if_neg hom]
        cases v <;>
          first
          | (refine dispatchValue_congr ord m tv fl _ result (h _ ?_) <;>
              (simp only [GoField.size_eq, GoValue.size]; omega))
          | (rename_i o pms
             cases o with
             | none => rfl
             | some w =>
               refine dispatchValue_congr ord m tv fl w result (h w ?_)
               simp only [GoField.size_eq, GoValue.size]
               omega)

theorem goSM_fuel_irrel : ∀ (bound : Nat) (data : GoValue),
    GoValue.size data ≤ bound → ∀ (f1 f2 : Nat), GoValue.size data ≤ f1 →
    GoValue.size data ≤ f2 → ∀ (ord : Oracle) (t m : String),
    goSM f1 ord t m data = goSM f2 ord t m data := by
  intro bound
  induction bound with
  | zero =>
    intro data hd
    have := GoValue.size_pos data
    omega
  | succ b ih =>
    intro data hd f1 f2 h1 h2 ord t m
    have hpos := GoValue.size_pos data
    obtain ⟨a, rfl⟩ : ∃ a, f1 = a + 1 := ⟨f1 - 1, by omega⟩
    obtain ⟨c, rfl⟩ : ∃ c, f2 = c + 1 := ⟨f2 - 1, by omega⟩
    cases data with
    | vStruct fs ms =>
      show structLoop (processOneField (goSM a ord t m) ord t m) fs []
        = structLoop (processOneField (goSM c ord t m) ord t m) fs []
      apply structLoop_congr
      intro g hg acc
      apply processOneField_congr
      intro w hw
      have hmem := goFieldsSize_mem hg
      simp only [GoValue.size] at hd h1 h2
      exact ih w (by omega) a c (by omega) (by omega) ord t m
    | vPointer o pms =>
      cases o with
      | none => rfl
      | some w =>
        cases w <;> try rfl
        case vStruct fs wms =>
          show structLoop (processOneField (goSM a ord t m) ord t m) fs []
            = structLoop (processOneField (goSM c ord t m) ord t m) fs []
          apply structLoop_congr
          intro g hg acc
          apply processOneField_congr
          intro w hw
          have hmem := goFieldsSize_mem hg
          simp only [GoValue.size] at hd h1 h2
          exact ih w (by omega) a c (by omega) (by omega) ord t m
    | vInt w n ims => rfl
    | vUint w n ims => rfl
    | vFloat w bits ims => rfl
    | vComplex w re im ims => rfl
    | vString s ims => rfl
    | vBool bb ims => rfl
    | vContainer ck bb p ims => rfl
    | vIface o ims => rfl
    | vFunc bb p ims => rfl
    | vUintptr p ims => rfl
    | vUnsafePtr bb p ims => rfl
    | vInvalid => rfl

theorem goSM_eq_StructToMap {fuel : Nat} {data : GoValue}
    (h : GoValue.size data ≤ fuel) (ord : Oracle) (t m : String) :
    goSM fuel ord t m data = StructToMap ord t m data :=
  goSM_fuel_irrel fuel data h fuel (GoValue.size data) h (le_refl _) ord t m

/-- The canonical unfolding of `StructToMap` on a struct input: the field
loop, with the recursive call of line 118 being `StructToMap` itself. -/
theorem StructToMap_struct (ord : Oracle) (t m : String) (fs : List GoField)
    (ms : MethodTable) :
    StructToMap ord t m (.vStruct fs ms)
      = structLoop (fieldStep ord t m) fs [] := by
  show structLoop (processOneField (goSM (goFieldsSize fs) ord t m) ord t m) fs []
    = structLoop (processOneField (StructToMap ord t m) ord t m) fs []
  apply structLoop_congr
  intro g hg acc
  apply processOneField_congr
  intro w hw
  have hmem := goFieldsSize_mem hg
  exact goSM_eq_StructToMap (by omega) ord t m

/-- The canonical unfolding of `StructToMap` on a pointer-to-struct input:
one dereference (line 74), then the field loop. -/
theorem StructToMap_ptr_struct (ord : Oracle) (t m : String)
    (fs : List GoField) (wms pms : MethodTable) :
    StructToMap ord t m (.vPointer (some (.vStruct fs wms)) pms)
      = structLoop (fieldStep ord t m) fs [] := by
  show structLoop (processOneField (goSM (GoValue.size (GoValue.vStruct fs wms)) ord t m) ord t m) fs []
    = structLoop (processOneField (StructToMap ord t m) ord t m) fs []
  apply structLoop_congr
  intro g hg acc
  apply processOneField_congr
  intro w hw
  have hmem := goFieldsSize_mem hg
  refine goSM_eq_StructToMap ?_ ord t m
  simp only [GoValue.size]
  omega

/-- Lines 70-73: a nil pointer input is the nil-pointer error, and the kind
string in the message is `"ptr"`. -/
theorem StructToMap_nil_ptr (ord : Oracle) (t m : String) (pms : MethodTable) :
    StructToMap ord t m (.vPointer none pms) = .err (.nilInput "ptr") := rfl

/-- Lines 76-78: an input that does not resolve to a struct after at most
one dereference is the not-a-struct error carrying the resolved kind. -/
theorem StructToMap_not_struct {data w : GoValue} (hd : derefOnce data = some w)
    (hns : isStructKind w = false) (ord : Oracle) (t m : String) :
    StructToMap ord t m data = .err (.notAStruct (kindString w)) := by
  cases data
  case vPointer o pms =>
    cases o with
    | none => simp [derefOnce] at hd
    | some w' =>
      simp only [derefOnce, Option.some.injEq] at hd
      subst hd
      cases w'
      case vIface o2 ims => cases o2 <;> rfl
      all_goals first | rfl | simp [isStructKind] at hns
  case vIface o ims =>
    simp only [derefOnce, Option.some.injEq] at hd
    subst hd
    cases o <;> rfl
  all_goals
    simp only [derefOnce, Option.some.injEq] at hd
  all_goals
    subst hd
  all_goals
    first | rfl | simp [isStructKind] at hns

/-! ### Shape of per-field results -/

theorem dispatchValue_ok_shape {recur : GoValue → Outcome Smap} {ord : Oracle}
    {m tagVal : String} {flag : Nat} {fv : GoValue} {acc r : Smap}
    (h : dispatchValue recur ord m tagVal flag fv acc = .ok r) :
    (∃ key value, r = Smap.insert acc key value)
    ∨ (∃ deep, recur fv = .ok deep ∧
        (r = Smap.foldIns acc (ord deep)
         ∨ r = Smap.foldIns acc ((ord deep).map
             (fun kv => (tagVal ++ "." ++ kv.1, kv.2)))))
    ∨ r = acc := by
  simp only [dispatchValue] at h
  cases hA : assignValueWithMethod fv m with
  | err e => simp only [hA] at h; exact Outcome.noConfusion h
  | panicked s => simp only [hA] at h; exact Outcome.noConfusion h
  | ok kv =>
    obtain ⟨key, value⟩ := kv
    simp only [hA] at h
    by_cases hk : key ≠ ""
    · rw [if_pos hk] at h
      injection h with h
      exact Or.inl ⟨key, value, h.symm⟩
    · rw [if_neg hk] at h
      cases fv with
      | vContainer ck isNil pid ms =>
        injection h with h
        exact Or.inl ⟨_, _, h.symm⟩
      | vStruct gs gms =>
        cases hR : recur (.vStruct gs gms) with
        | err e => simp only [hR] at h; exact Outcome.noConfusion h
        | panicked s => simp only [hR] at h; exact Outcome.noConfusion h
        | ok deep =>
          simp only [hR] at h
          by_cases hdive : flag &&& FLAG_DIVE ≠ 0
          · rw [if_pos hdive] at h
            injection h with h
            exact Or.inr (Or.inl ⟨deep, rfl, Or.inl h.symm⟩)
          · rw [if_neg hdive] at h
            by_cases hdot : flag &&& FLAG_DOTTED ≠ 0
            · rw [if_pos hdot] at h
              injection h with h
              refine Or.inr (Or.inl ⟨deep, rfl, Or.inr ?_⟩)
              rw [← h, dotted_fold_eq_foldIns]
            · rw [if_neg hdot] at h
              injection h with h
              exact Or.inl ⟨_, _, h.symm⟩
      | vInt w n ms =>
        injection h with h
        exact Or.inl ⟨_, _, h.symm⟩
      | vUint w n ms =>
        injection h with h
        exact Or.inl ⟨_, _, h.symm⟩
      | vFloat w bits ms =>
        injection h with h
        exact Or.inl ⟨_, _, h.symm⟩
      | vComplex w re im ms =>
        injection h with h
        exact Or.inl ⟨_, _, h.symm⟩
      | vBool b ms =>
        injection h with h
        exact Or.inl ⟨_, _, h.symm⟩
      | vIface o ms =>
        injection h with h
        exact Or.inl ⟨_, _, h.symm⟩
      | vString s ms =>
        simp only [] at h
        by_cases hw : flag &&& FLAG_WILDCARD ≠ 0
        · rw [if_pos hw] at h
          injection h with h
          exact Or.inl ⟨_, _, h.symm⟩
        · rw [if_neg hw] at h
          injection h with h
          exact Or.inl ⟨_, _, h.symm⟩
      | vPointer o ms =>
        injection h with h
        exact Or.inr (Or.inr h.symm)
      | vFunc b p ms =>
        injection h with h
        exact Or.inr (Or.inr h.symm)
      | vUintptr p ms =>
        injection h with h
        exact Or.inr (Or.inr h.symm)
      | vUnsafePtr b p ms =>
        injection h with h
        exact Or.inr (Or.inr h.symm)
      | vInvalid =>
        injection h with h
        exact Or.inr (Or.inr h.symm)

theorem dispatchValue_ok_sorted {recur : GoValue → Outcome Smap} {ord : Oracle}
    {m tagVal : String} {flag : Nat} {fv : GoValue} {acc r : Smap}
    (hs : Smap.Sorted acc)
    (h : dispatchValue recur ord m tagVal flag fv acc = .ok r) :
    Smap.Sorted r := by
  rcases dispatchValue_ok_shape h with ⟨k, v, rfl⟩ | ⟨deep, _, rfl | rfl⟩ | rfl
  · exact Smap.insert_sorted _ _ hs
  · exact Smap.foldIns_sorted _ hs
  · exact Smap.foldIns_sorted _ hs
  · exact hs

theorem dispatchValue_ok_keys {recur : GoValue → Outcome Smap} {ord : Oracle}
    {m tagVal : String} {flag : Nat} {fv : GoValue} {acc r : Smap}
    {k : String} (hk : k ∈ Smap.keys acc)
    (h : dispatchValue recur ord m tagVal flag fv acc = .ok r) :
    k ∈ Smap.keys r := by
  rcases dispatchValue_ok_shape h with ⟨k', v, rfl⟩ | ⟨deep, _, rfl | rfl⟩ | rfl
  · exact (Smap.mem_keys_insert acc k' v k).mpr (Or.inr hk)
  · exact Smap.mem_keys_foldIns _ hk
  · exact Smap.mem_keys_foldIns _ hk
  · exact hk

theorem processOneField_ok_shape {recur : GoValue → Outcome Smap}
    {ord : Oracle} {t m : String} {f : GoField} {acc r : Smap}
    (h : processOneField recur ord t m f acc = .ok r) :
    r = acc ∨ ∃ tv fl w, derefOnce (GoField.fval f) = some w ∧
      dispatchValue recur ord m tv fl w acc = .ok r := by
  obtain ⟨n, ex, tg, v⟩ := f
  simp only [processOneField] at h
  by_cases hex : ex = false
  · rw [if_pos hex] at h
    injection h with h
    exact Or.inl h.symm
  · rw [if_neg hex] at h
    rcases htr : tagsReader tg t with ⟨tv, fl⟩
    simp only [htr] at h
    by_cases hig : fl &&& FLAG_IGNORE ≠ 0
    · rw [if_pos hig] at h
      injection h with h
      exact Or.inl h.symm
    · rw [if_neg hig] at h
      by_cases hom : fl &&& FLAG_OMITEMPTY ≠ 0 ∧ GoValue.isZero v = true
      · rw [if_pos hom] at h
        injection h with h
        exact Or.inl h.symm
      · rw [if_neg hom] at h
        cases v with
        | vPointer o pms =>
          cases o with
          | none =>
            injection h with h
            exact Or.inl h.symm
          | some w => exact Or.inr ⟨tv, fl, w, rfl, h⟩
        | vStruct gs gms => exact Or.inr ⟨tv, fl, _, rfl, h⟩
        | vInt w n ms => exact Or.inr ⟨tv, fl, _, rfl, h⟩
        | vUint w n ms => exact Or.inr ⟨tv, fl, _, rfl, h⟩
        | vFloat w bits ms => exact Or.inr ⟨tv, fl, _, rfl, h⟩
        | vComplex w re im ms => exact Or.inr ⟨tv, fl, _, rfl, h⟩
        | vString s ms => exact Or.inr ⟨tv, fl, _, rfl, h⟩
        | vBool b ms => exact Or.inr ⟨tv, fl, _, rfl, h⟩
        | vContainer ck isNil pid ms => exact Or.inr ⟨tv, fl, _, rfl, h⟩
        | vIface o ms => exact Or.inr ⟨tv, fl, _, rfl, h⟩
        | vFunc b p ms => exact Or.inr ⟨tv, fl, _, rfl, h⟩
        | vUintptr p ms => exact Or.inr ⟨tv, fl, _, rfl, h⟩
        | vUnsafePtr b p ms => exact Or.inr ⟨tv, fl, _, rfl, h⟩
        | vInvalid => exact Or.inr ⟨tv, fl, _, rfl, h⟩

theorem processOneField_ok_sorted {recur : GoValue → Outcome Smap}
    {ord : Oracle} {t m : String} {f : GoField} {acc r : Smap}
    (hs : Smap.Sorted acc)
    (h : processOneField recur ord t m f acc = .ok r) : Smap.Sorted r := by
  rcases processOneField_ok_shape h with rfl | ⟨tv, fl, w, _, hd⟩
  · exact hs
  · exact dispatchValue_ok_sorted hs hd

theorem processOneField_ok_keys {recur : GoValue → Outcome Smap}
    {ord : Oracle} {t m : String} {f : GoField} {acc r : Smap} {k : String}
    (hk : k ∈ Smap.keys acc)
    (h : processOneField recur ord t m f acc = .ok r) : k ∈ Smap.keys r := by
  rcases processOneField_ok_shape h with rfl | ⟨tv, fl, w, _, hd⟩
  · exact hk
  · exact dispatchValue_ok_keys hk hd

/-! ### Shape of per-field errors -/

theorem callFunc_err {v : GoValue} {m : String} {e : GoError}
    (h : callFunc v m = .err e) : OverrideErr e := by
  simp only [callFunc] at h
  cases hF : MethodTable.find (GoValue.methods v) m with
  | none =>
    simp only [hF] at h
    exact Outcome.noConfusion h
  | some g =>
    obtain ⟨numIn, results⟩ := g
    simp only [hF] at h
    by_cases hn : numIn ≠ 0
    · rw [if_pos hn] at h
      exact Outcome.noConfusion h
    · rw [if_neg hn] at h
      cases results with
      | nil =>
        injection h with h
        exact Or.inl ⟨m, h.symm⟩
      | cons r0 rest =>
        cases rest with
        | nil =>
          injection h with h
          exact Or.inl ⟨m, h.symm⟩
        | cons r1 rest2 =>
          cases rest2 with
          | cons r2 rest3 =>
            injection h with h
            exact Or.inl ⟨m, h.symm⟩
          | nil =>
            cases r0 <;>
              first
              | exact Outcome.noConfusion h
              | (injection h with h; exact Or.inr ⟨m, h.symm⟩)

theorem assign_err {v : GoValue} {m : String} {e : GoError}
    (h : assignValueWithMethod v m = .err e) : OverrideErr e := by
  simp only [assignValueWithMethod] at h
  by_cases hm : m = ""
  · rw [if_pos hm] at h
    exact Outcome.noConfusion h
  · rw [if_neg hm] at h
    cases hF : MethodTable.find (GoValue.methods v) m with
    | none =>
      simp only [hF] at h
      exact Outcome.noConfusion h
    | some g =>
      simp only [hF] at h
      cases hC : callFunc v m with
      | ok kv =>
        simp only [hC] at h
        exact Outcome.noConfusion h
      | err e' =>
        simp only [hC] at h
        injection h with h
        exact h ▸ callFunc_err hC
      | panicked s =>
        simp only [hC] at h
        exact Outcome.noConfusion h

theorem dispatchValue_err_shape {recur : GoValue → Outcome Smap}
    {ord : Oracle} {m tagVal : String} {flag : Nat} {fv : GoValue}
    {acc : Smap} {e : GoError}
    (h : dispatchValue recur ord m tagVal flag fv acc = .err e) :
    OverrideErr e ∨ (∃ gs gms, fv = .vStruct gs gms ∧ recur fv = .err e) := by
  simp only [dispatchValue] at h
  cases hA : assignValueWithMethod fv m with
  | err e' =>
    simp only [hA] at h
    injection h with h
    exact Or.inl (h ▸ assign_err hA)
  | panicked s => simp only [hA] at h; exact Outcome.noConfusion h
  | ok kv =>
    obtain ⟨key, value⟩ := kv
    simp only [hA] at h
    by_cases hk : key ≠ ""
    · rw [if_pos hk] at h
      exact Outcome.noConfusion h
    · rw [if_neg hk] at h
      cases fv with
      | vStruct gs gms =>
        cases hR : recur (.vStruct gs gms) with
        | err e' =>
          simp only [hR] at h
          injection h with h
          exact Or.inr ⟨gs, gms, rfl, congrArg Outcome.err h⟩
        | panicked s => simp only [hR] at h; exact Outcome.noConfusion h
        | ok deep =>
          simp only [hR] at h
          by_cases hdive : flag &&& FLAG_DIVE ≠ 0
          · rw [if_pos hdive] at h
            exact Outcome.noConfusion h
          · rw [if_neg hdive] at h
            by_cases hdot : flag &&& FLAG_DOTTED ≠ 0
            · rw [if_pos hdot] at h
              exact Outcome.noConfusion h
            · rw [if_neg hdot] at h
              exact Outcome.noConfusion h
      | vString s ms =>
        simp only [] at h
        by_cases hw : flag &&& FLAG_WILDCARD ≠ 0
        · rw [if_pos hw] at h
          exact Outcome.noConfusion h
        · rw [if_neg hw] at h
          exact Outcome.noConfusion h
      | vContainer ck isNil pid ms => exact Outcome.noConfusion h
      | vInt w n ms => exact Outcome.noConfusion h
      | vUint w n ms => exact Outcome.noConfusion h
      | vFloat w bits ms => exact Outcome.noConfusion h
      | vComplex w re im ms => exact Outcome.noConfusion h
      | vBool b ms => exact Outcome.noConfusion h
      | vIface o ms => exact Outcome.noConfusion h
      | vPointer o ms => exact Outcome.noConfusion h
      | vFunc b p ms => exact Outcome.noConfusion h
      | vUintptr p ms => exact Outcome.noConfusion h
      | vUnsafePtr b p ms => exact Outcome.noConfusion h
      | vInvalid => exact Outcome.noConfusion h

theorem processOneField_err_shape {recur : GoValue → Outcome Smap}
    {ord : Oracle} {t m : String} {f : GoField} {acc : Smap} {e : GoError}
    (h : processOneField recur ord t m f acc = .err e) :
    ∃ tv fl w, derefOnce (GoField.fval f) = some w ∧
      dispatchValue recur ord m tv fl w acc = .err e := by
  obtain ⟨n, ex, tg, v⟩ := f
  simp only [processOneField] at h
  by_cases hex : ex = false
  · rw [if_pos hex] at h
    exact Outcome.noConfusion h
  · rw [if_neg hex] at h
    rcases htr : tagsReader tg t with ⟨tv, fl⟩
    simp only [htr] at h
    by_cases hig : fl &&& FLAG_IGNORE ≠ 0
    · rw [if_pos hig] at h
      exact Outcome.noConfusion h
    · rw [if_neg hig] at h
      by_cases hom : fl &&& FLAG_OMITEMPTY ≠ 0 ∧ GoValue.isZero v = true
      · rw [if_pos hom] at h
        exact Outcome.noConfusion h
      · rw [if_neg hom] at h
        cases v with
        | vPointer o pms =>
          cases o with
          | none => exact Outcome.noConfusion h
          | some w => exact ⟨tv, fl, w, rfl, h⟩
        | vStruct gs gms => exact ⟨tv, fl, _, rfl, h⟩
        | vInt w n ms => exact ⟨tv, fl, _, rfl, h⟩
        | vUint w n ms => exact ⟨tv, fl, _, rfl, h⟩
        | vFloat w bits ms => exact ⟨tv, fl, _, rfl, h⟩
        | vComplex w re im ms => exact ⟨tv, fl, _, rfl, h⟩
        | vString s ms => exact ⟨tv, fl, _, rfl, h⟩
        | vBool b ms => exact ⟨tv, fl, _, rfl, h⟩
        | vContainer ck isNil pid ms => exact ⟨tv, fl, _, rfl, h⟩
        | vIface o ms => exact ⟨tv, fl, _, rfl, h⟩
        | vFunc b p ms => exact ⟨tv, fl, _, rfl, h⟩
        | vUintptr p ms => exact ⟨tv, fl, _, rfl, h⟩
        | vUnsafePtr b p ms => exact ⟨tv, fl, _, rfl, h⟩
        | vInvalid => exact ⟨tv, fl, _, rfl, h⟩

/-! ### Loop invariants -/

theorem structLoop_sorted {step : GoField → Smap → Outcome Smap}
    (hstep : ∀ f acc r, Smap.Sorted acc → step f acc = .ok r → Smap.Sorted r) :
    ∀ {l : List GoField} {acc res : Smap}, Smap.Sorted acc →
    structLoop step l acc = .ok res → Smap.Sorted res
  | [], acc, res, hs, h => by
    injection h with h
    exact h ▸ hs
  | f :: l, acc, res, hs, h => by
    rw [structLoop_cons] at h
    cases hf : step f acc with
    | ok r =>
      rw [hf] at h
      exact structLoop_sorted hstep (hstep f acc r hs hf) h
    | err e => rw [hf] at h; exact Outcome.noConfusion h
    | panicked s => rw [hf] at h; exact Outcome.noConfusion h

theorem structLoop_keys {step : GoField → Smap → Outcome Smap} {k : String}
    (hstep : ∀ f acc r, k ∈ Smap.keys acc → step f acc = .ok r →
      k ∈ Smap.keys r) :
    ∀ {l : List GoField} {acc res : Smap}, k ∈ Smap.keys acc →
    structLoop step l acc = .ok res → k ∈ Smap.keys res
  | [], acc, res, hk, h => by
    injection h with h
    exact h ▸ hk
  | f :: l, acc, res, hk, h => by
    rw [structLoop_cons] at h
    cases hf : step f acc with
    | ok r =>
      rw [hf] at h
      exact structLoop_keys hstep (hstep f acc r hk hf) h
    | err e => rw [hf] at h; exact Outcome.noConfusion h
    | panicked s => rw [hf] at h; exact Outcome.noConfusion h

/-! ### Global invariants of the conversion -/

theorem goSM_sorted : ∀ (fuel : Nat) (ord : Oracle) (t m : String)
    (data : GoValue) (res : Smap), goSM fuel ord t m data = .ok res →
    Smap.Sorted res := by
  intro fuel
  induction fuel with
  | zero =>
    intro ord t m data res h
    exact Outcome.noConfusion h
  | succ fu ih =>
    intro ord t m data res h
    cases data with
    | vStruct fs ms =>
      exact structLoop_sorted
        (fun f acc r hs hf => processOneField_ok_sorted hs hf)
        List.Pairwise.nil h
    | vPointer o pms =>
      cases o with
      | none => exact Outcome.noConfusion h
      | some w =>
        cases w <;> try exact Outcome.noConfusion h
        case vStruct fs wms =>
          exact structLoop_sorted
            (fun f acc r hs hf => processOneField_ok_sorted hs hf)
            List.Pairwise.nil h
    | vInt w n ims => exact Outcome.noConfusion h
    | vUint w n ims => exact Outcome.noConfusion h
    | vFloat w bits ims => exact Outcome.noConfusion h
    | vComplex w re im ims => exact Outcome.noConfusion h
    | vString s ims => exact Outcome.noConfusion h
    | vBool b ims => exact Outcome.noConfusion h
    | vContainer ck isNil pid ims => exact Outcome.noConfusion h
    | vIface o ims => exact Outcome.noConfusion h
    | vFunc b p ims => exact Outcome.noConfusion h
    | vUintptr p ims => exact Outcome.noConfusion h
    | vUnsafePtr b p ims => exact Outcome.noConfusion h
    | vInvalid => exact Outcome.noConfusion h

theorem StructToMap_sorted {ord : Oracle} {t m : String} {data : GoValue}
    {res : Smap} (h : StructToMap ord t m data = .ok res) :
    Smap.Sorted res :=
  goSM_sorted (GoValue.size data) ord t m data res h

theorem goSM_struct_err : ∀ (fuel : Nat) (ord : Oracle) (t m : String)
    (gs : List GoField) (gms : MethodTable) (e : GoError),
    goSM fuel ord t m (.vStruct gs gms) = .err e → OverrideErr e := by
  intro fuel
  induction fuel with
  | zero =>
    intro ord t m gs gms e h
    exact Outcome.noConfusion h
  | succ fu ih =>
    intro ord t m gs gms e h
    obtain ⟨f, hf, acc', hstep⟩ := structLoop_err h
    obtain ⟨tv, fl, w, hw, hd⟩ := processOneField_err_shape hstep
    rcases dispatchValue_err_shape hd with ho | ⟨gs2, gms2, rfl, hrec⟩
    · exact ho
    · exact ih ord t m gs2 gms2 e hrec

/-! ### Independence of the `range` order -/

theorem structLoop_congr_sorted {step1 step2 : GoField → Smap → Outcome Smap}
    (hpres : ∀ f acc r, Smap.Sorted acc → step1 f acc = .ok r →
      Smap.Sorted r) :
    ∀ {l : List GoField},
    (∀ f ∈ l, ∀ acc, Smap.Sorted acc → step1 f acc = step2 f acc) →
    ∀ {acc : Smap}, Smap.Sorted acc →
    structLoop step1 l acc = structLoop step2 l acc
  | [], _, _, _ => rfl
  | f :: l, h, acc, hs => by
    rw [structLoop_cons, structLoop_cons, ← h f (List.mem_cons_self _ _) acc hs]
    cases hf : step1 f acc with
    | ok r =>
      exact structLoop_congr_sorted hpres
        (fun g hg => h g (List.mem_cons.mpr (Or.inr hg)))
        (hpres f acc r hs hf)
    | err e => rfl
    | panicked s => rfl

theorem dispatchValue_ord {recur1 recur2 : GoValue → Outcome Smap}
    {ord1 ord2 : Oracle} (hv1 : ValidOracle ord1) (hv2 : ValidOracle ord2)
    {m tagVal : String} {flag : Nat} {fv : GoValue} {acc : Smap}
    (hs : Smap.Sorted acc) (hrec : recur1 fv = recur2 fv)
    (hsrt : ∀ res, recur1 fv = .ok res → Smap.Sorted res) :
    dispatchValue recur1 ord1 m tagVal flag fv acc
      = dispatchValue recur2 ord2 m tagVal flag fv acc := by
  cases fv with
  | vStruct gs gms =>
    simp only [dispatchValue]
    cases hA : assignValueWithMethod (GoValue.vStruct gs gms) m with
    | err e => rfl
    | panicked s => rfl
    | ok kv =>
      obtain ⟨key, value⟩ := kv
      simp only []
      by_cases hk : key ≠ ""
      · simp only [if_pos hk]
      · simp only [if_neg hk]
        rw [hrec]
        cases hR : recur2 (.vStruct gs gms) with
        | err e => rfl
        | panicked s => rfl
        | ok deep =>
          simp only []
          have hsd : Smap.Sorted deep := hsrt deep (hrec.trans hR)
          have hnd : ((ord1 deep).map Prod.fst).Nodup :=
            (((hv1 deep).map Prod.fst).nodup_iff).mpr
              (Smap.sorted_keys_nodup hsd)
          have hperm : List.Perm (ord1 deep) (ord2 deep) :=
            (hv1 deep).trans (hv2 deep).symm
          by_cases hdive : flag &&& FLAG_DIVE ≠ 0
          · simp only [if_pos hdive]
            exact congrArg Outcome.ok (Smap.foldIns_perm hperm acc hs hnd)
          · simp only [if_neg hdive]
            by_cases hdot : flag &&& FLAG_DOTTED ≠ 0
            · simp only [if_pos hdot]
              rw [dotted_fold_eq_foldIns, dotted_fold_eq_foldIns]
              refine congrArg Outcome.ok ?_
              refine Smap.foldIns_perm (hperm.map _) acc hs ?_
              have hm : ((ord1 deep).map
                  (fun kv => (tagVal ++ "." ++ kv.1, kv.2))).map Prod.fst
                  = ((ord1 deep).map Prod.fst).map
                    (fun s => tagVal ++ "." ++ s) := by
                rw [List.map_map, List.map_map]
                rfl
              rw [hm]
              exact hnd.map (fun a b hab => dotted_key_inj hab)
            · simp only [if_neg hdot]
  | vPointer o ms => simp only [dispatchValue]
  | vInt w n ms => simp only [dispatchValue]
  | vUint w n ms => simp only [dispatchValue]
  | vFloat w bits ms => simp only [dispatchValue]
  | vComplex w re im ms => simp only [dispatchValue]
  | vString s ms => simp only [dispatchValue]
  | vBool b ms => simp only [dispatchValue]
  | vContainer ck isNil pid ms => simp only [dispatchValue]
  | vIface o ms => simp only [dispatchValue]
  | vFunc b p ms => simp only [dispatchValue]
  | vUintptr p ms => simp only [dispatchValue]
  | vUnsafePtr b p ms => simp only [dispatchValue]
  | vInvalid => simp only [dispatchValue]

theorem processOneField_ord {recur1 recur2 : GoValue → Outcome Smap}
    {ord1 ord2 : Oracle} (hv1 : ValidOracle ord1) (hv2 : ValidOracle ord2)
    (t m : String) (f : GoField) (acc : Smap) (hs : Smap.Sorted acc)
    (hrec : ∀ w, recur1 w = recur2 w)
    (hsrt : ∀ w res, recur1 w = .ok res → Smap.Sorted res) :
    processOneField recur1 ord1 t m f acc
      = processOneField recur2 ord2 t m f acc := by
  obtain ⟨n, ex, tg, v⟩ := f
  simp only [processOneField]
  rcases htr : tagsReader tg t with ⟨tv, fl⟩
  by_cases hex : ex = false
  · simp [hex]
  · simp only [if_neg hex, htr]
    by_cases hig : fl &&& FLAG_IGNORE ≠ 0
    · simp [hig]
    · simp only [if_neg hig]
      by_cases hom : fl &&& FLAG_OMITEMPTY ≠ 0 ∧ GoValue.isZero v = true
      · simp [hom]
      · simp only [if_neg hom]
        cases v <;>
          first
          | (exact dispatchValue_ord hv1 hv2 hs (hrec _) (hsrt _))
          | (rename_i o pms
             cases o with
             | none => rfl
             | some w => exact dispatchValue_ord hv1 hv2 hs (hrec w) (hsrt w))

theorem goSM_ord : ∀ (fuel : Nat) {ord1 ord2 : Oracle},
    ValidOracle ord1 → ValidOracle ord2 → ∀ (t m : String) (data : GoValue),
    goSM fuel ord1 t m data = goSM fuel ord2 t m data := by
  intro fuel
  induction fuel with
  | zero => intro ord1 ord2 _ _ t m data; rfl
  | succ fu ih =>
    intro ord1 ord2 hv1 hv2 t m data
    cases data with
    | vStruct fs ms =>
      show structLoop (processOneField (goSM fu ord1 t m) ord1 t m) fs []
        = structLoop (processOneField (goSM fu ord2 t m) ord2 t m) fs []
      exact structLoop_congr_sorted
        (fun f acc r hs hf => processOneField_ok_sorted hs hf)
        (fun f _ acc hs => processOneField_ord hv1 hv2 t m f acc hs
          (fun w => ih hv1 hv2 t m w)
          (fun w res hres => goSM_sorted fu ord1 t m w res hres))
        List.Pairwise.nil
    | vPointer o pms =>
      cases o with
      | none => rfl
      | some w =>
        cases w <;> try rfl
        case vStruct fs wms =>
          show structLoop (processOneField (goSM fu ord1 t m) ord1 t m) fs []
            = structLoop (processOneField (goSM fu ord2 t m) ord2 t m) fs []
          exact structLoop_congr_sorted
            (fun f acc r hs hf => processOneField_ok_sorted hs hf)
            (fun f _ acc hs => processOneField_ord hv1 hv2 t m f acc hs
              (fun w => ih hv1 hv2 t m w)
              (fun w res hres => goSM_sorted fu ord1 t m w res hres))
            List.Pairwise.nil
    | vInt w n ims => rfl
    | vUint w n ims => rfl
    | vFloat w bits ims => rfl
    | vComplex w re im ims => rfl
    | vString s ims => rfl
    | vBool b ims => rfl
    | vContainer ck isNil pid ims => rfl
    | vIface o ims => rfl
    | vFunc b p ims => rfl
    | vUintptr p ims => rfl
    | vUnsafePtr b p ims => rfl
    | vInvalid => rfl

theorem StructToMap_ord {ord1 ord2 : Oracle} (hv1 : ValidOracle ord1)
    (hv2 : ValidOracle ord2) (t m : String) (data : GoValue) :
    StructToMap ord1 t m data = StructToMap ord2 t m data :=
  goSM_ord (GoValue.size data) hv1 hv2 t m data

/-! ### Skip and bypass behaviour of one field -/

theorem processOneField_skip_unexported {recur : GoValue → Outcome Smap}
    {ord : Oracle} {t m : String} {f : GoField} {acc : Smap}
    (h : GoField.exported f = false) :
    processOneField recur ord t m f acc = .ok acc := by
  obtain ⟨n, ex, tg, v⟩ := f
  simp only [GoField.exported] at h
  simp [processOneField, h]

theorem processOneField_skip_ignore {recur : GoValue → Outcome Smap}
    {ord : Oracle} {t m : String} {f : GoField} {acc : Smap}
    (h : (tagsReader (GoField.tags f) t).2 &&& FLAG_IGNORE ≠ 0) :
    processOneField recur ord t m f acc = .ok acc := by
  obtain ⟨n, ex, tg, v⟩ := f
  simp only [GoField.tags] at h
  by_cases hex : ex = false
  · simp [processOneField, hex]
  · rcases htr : tagsReader tg t with ⟨tv, fl⟩
    rw [htr] at h
    simp only [] at h
    simp [processOneField, hex, htr, h]

theorem processOneField_skip_omitzero {recur : GoValue → Outcome Smap}
    {ord : Oracle} {t m : String} {f : GoField} {acc : Smap}
    (hom : (tagsReader (GoField.tags f) t).2 &&& FLAG_OMITEMPTY ≠ 0)
    (hz : GoValue.isZero (GoField.fval f) = true) :
    processOneField recur ord t m f acc = .ok acc := by
  obtain ⟨n, ex, tg, v⟩ := f
  simp only [GoField.tags] at hom
  simp only [GoField.fval] at hz
  by_cases hex : ex = false
  · simp [processOneField, hex]
  · rcases htr : tagsReader tg t with ⟨tv, fl⟩
    rw [htr] at hom
    simp only [] at hom
    by_cases hig : fl &&& FLAG_IGNORE ≠ 0
    · simp [processOneField, hex, htr, hig]
    · simp [processOneField, hex, htr, hig, hom, hz]

theorem processOneField_skip_nilptr {recur : GoValue → Outcome Smap}
    {ord : Oracle} {t m : String} {n : String} {ex : Bool}
    {tg : List (String × String)} {pms : MethodTable} {acc : Smap} :
    processOneField recur ord t m (.mk n ex tg (.vPointer none pms)) acc
      = .ok acc := by
  by_cases hex : ex = false
  · simp [processOneField, hex]
  · rcases htr : tagsReader tg t with ⟨tv, fl⟩
    by_cases hig : fl &&& FLAG_IGNORE ≠ 0
    · simp [processOneField, hex, htr, hig]
    · by_cases hom : fl &&& FLAG_OMITEMPTY ≠ 0 ∧
        GoValue.isZero (GoValue.vPointer none pms) = true
      · simp [processOneField, hex, htr, hig, hom]
      · simp [processOneField, hex, htr, hig, hom]

theorem processOneField_deref {recur : GoValue → Outcome Smap} {ord : Oracle}
    {t m : String} {n : String} {tg : List (String × String)} {w : GoValue}
    {pms : MethodTable} {acc : Smap} {tv : String} {fl : Nat}
    (htr : tagsReader tg t = (tv, fl)) (hig : fl &&& FLAG_IGNORE = 0) :
    processOneField recur ord t m (.mk n true tg (.vPointer (some w) pms)) acc
      = dispatchValue recur ord m tv fl w acc := by
  simp [processOneField, htr, hig, GoValue.isZero]

theorem dispatchValue_bypass {recur : GoValue → Outcome Smap} {ord : Oracle}
    {m tagVal : String} {flag : Nat} {fv : GoValue} {acc : Smap}
    {key : String} {value : GenValue}
    (hA : assignValueWithMethod fv m = .ok (key, value)) (hk : key ≠ "") :
    dispatchValue recur ord m tagVal flag fv acc
      = .ok (Smap.insert acc key value) := by
  simp [dispatchValue, hA, hk]

theorem dispatchValue_unhandled {recur : GoValue → Outcome Smap}
    {ord : Oracle} {m tagVal : String} {flag : Nat} {fv : GoValue}
    {acc : Smap} {gv : GenValue} (hu : isUnhandledKind fv = true)
    (hA : assignValueWithMethod fv m = .ok ("", gv)) :
    dispatchValue recur ord m tagVal flag fv acc = .ok acc := by
  cases fv <;> simp [isUnhandledKind] at hu <;> simp [dispatchValue, hA]

/-! ### Removing a field that writes nothing -/

theorem StructToMap_removal {ord : Oracle} {t m : String} {f : GoField}
    (fs1 fs2 : List GoField) (ms : MethodTable)
    (hid : ∀ acc, fieldStep ord t m f acc = .ok acc) :
    StructToMap ord t m (.vStruct (fs1 ++ f :: fs2) ms)
      = StructToMap ord t m (.vStruct (fs1 ++ fs2) ms) := by
  rw [StructToMap_struct, StructToMap_struct, structLoop_append,
    structLoop_append]
  cases h1 : structLoop (fieldStep ord t m) fs1 [] with
  | ok r =>
    show structLoop (fieldStep ord t m) (f :: fs2) r
      = structLoop (fieldStep ord t m) fs2 r
    rw [structLoop_cons, hid r]
  | err e => rfl
  | panicked s => rfl

theorem StructToMap_prefix_err {ord : Oracle} {t m : String} {f : GoField}
    {fs1 fs2 : List GoField} {ms : MethodTable} {acc : Smap} {e : GoError}
    (h1 : structLoop (fieldStep ord t m) fs1 [] = .ok acc)
    (h2 : fieldStep ord t m f acc = .err e) :
    StructToMap ord t m (.vStruct (fs1 ++ f :: fs2) ms) = .err e := by
  rw [StructToMap_struct, structLoop_append, h1]
  show structLoop (fieldStep ord t m) (f :: fs2) acc = .err e
  rw [structLoop_cons, h2]

/-! ### The flag fold of the tag parser -/

theorem nat_or_eq_zero {a b : Nat} (h : a ||| b = 0) : a = 0 ∧ b = 0 := by
  have hbit : ∀ i, (a ||| b).testBit i = Nat.testBit 0 i := fun i => by rw [h]
  constructor <;> apply Nat.eq_of_testBit_eq <;> intro i <;>
    have hx := hbit i
  · simp only [Nat.testBit_or, Nat.zero_testBit,
      Bool.or_eq_false_iff] at hx
    simp [hx.1]
  · simp only [Nat.testBit_or, Nat.zero_testBit,
      Bool.or_eq_false_iff] at hx
    simp [hx.2]

theorem nat_or_ne_zero {a b : Nat} : a ||| b ≠ 0 ↔ a ≠ 0 ∨ b ≠ 0 := by
  constructor
  · intro h
    by_cases ha : a = 0
    · subst ha
      rw [Nat.zero_or] at h
      exact Or.inr h
    · exact Or.inl ha
  · rintro (h | h) <;> intro hc
    · exact h (nat_or_eq_zero hc).1
    · exact h (nat_or_eq_zero hc).2

theorem optionStep_acc (acc : Nat) (o : String) :
    optionStep acc o = acc ||| optionStep 0 o := by
  simp only [optionStep]
  split_ifs <;> simp [Nat.zero_or, Nat.or_zero]

theorem foldl_optionStep : ∀ (opts : List String) (acc : Nat),
    opts.foldl optionStep acc = acc ||| opts.foldl optionStep 0
  | [], acc => by simp
  | o :: opts, acc => by
    simp only [List.foldl_cons]
    rw [foldl_optionStep opts (optionStep acc o),
      foldl_optionStep opts (optionStep 0 o), optionStep_acc acc o,
      Nat.or_assoc]

theorem foldl_optionStep_bit (F : Nat) (w : String)
    (hw : optionStep 0 w &&& F ≠ 0)
    (hother : ∀ o, o ≠ w → optionStep 0 o &&& F = 0) :
    ∀ opts : List String,
    (opts.foldl optionStep 0 &&& F ≠ 0 ↔ w ∈ opts)
  | [] => by simp [Nat.zero_and]
  | o :: opts => by
    rw [List.foldl_cons, foldl_optionStep opts (optionStep 0 o),
      Nat.and_distrib_right, nat_or_ne_zero,
      foldl_optionStep_bit F w hw hother opts]
    constructor
    · rintro (h | h)
      · by_cases ho : o = w
        · exact List.mem_cons.mpr (Or.inl ho.symm)
        · exact absurd (hother o ho) h
      · exact List.mem_cons.mpr (Or.inr h)
    · intro h
      rcases List.mem_cons.mp h with h | h
      · subst h
        exact Or.inl hw
      · exact Or.inr h

theorem optionStep_other_ignore : ∀ o, o ≠ OPTION_IGNORE →
    optionStep 0 o &&& FLAG_IGNORE = 0 := by
  intro o ho
  simp only [optionStep]
  split_ifs <;> first | decide | exact absurd (by assumption) ho

theorem optionStep_other_omitempty : ∀ o, o ≠ OPTION_OMITEMPTY →
    optionStep 0 o &&& FLAG_OMITEMPTY = 0 := by
  intro o ho
  simp only [optionStep]
  split_ifs <;> first | decide | exact absurd (by assumption) ho

theorem optionStep_other_dive : ∀ o, o ≠ OPTION_DIVE →
    optionStep 0 o &&& FLAG_DIVE = 0 := by
  intro o ho
  simp only [optionStep]
  split_ifs <;> first | decide | exact absurd (by assumption) ho

theorem optionStep_other_wildcard : ∀ o, o ≠ OPTION_WILDCARD →
    optionStep 0 o &&& FLAG_WILDCARD = 0 := by
  intro o ho
  simp only [optionStep]
  split_ifs <;> first | decide | exact absurd (by assumption) ho

theorem optionStep_other_dotted : ∀ o, o ≠ OPTION_DOTTED →
    optionStep 0 o &&& FLAG_DOTTED = 0 := by
  intro o ho
  simp only [optionStep]
  split_ifs <;> first | decide | exact absurd (by assumption) ho

/-- The main path of one field iteration: exported field, no ignore flag,
not skipped by `omitempty` — the remaining behaviour is the pointer
handling of lines 98-103 followed by the dispatch of lines 105-151. -/
theorem processOneField_main {recur : GoValue → Outcome Smap} {ord : Oracle}
    {t m : String} {n : String} {tg : List (String × String)} {v : GoValue}
    {acc : Smap} {tv : String} {fl : Nat}
    (htr : tagsReader tg t = (tv, fl)) (hig : fl &&& FLAG_IGNORE = 0)
    (hom : ¬(fl &&& FLAG_OMITEMPTY ≠ 0 ∧ GoValue.isZero v = true)) :
    processOneField recur ord t m (.mk n true tg v) acc
      = match v with
        | .vPointer none _ => .ok acc
        | .vPointer (some w) _ => dispatchValue recur ord m tv fl w acc
        | _ => dispatchValue recur ord m tv fl v acc := by
  simp only [processOneField, htr]
  rw [if_neg (by simp : ¬((true : Bool) = false)), if_neg (by simp [hig]),
    if_neg hom]
  cases v <;> first | rfl | (rename_i o _; cases o <;> rfl)

/-! ### The claims -/

/-- **C2, counterexample.**  The claim says the tag parser sets flags only
from the tokens after the first (key) token, the key token never being
interpreted as an option word.  But the loop of line 176 starts at index 0:
a tag value whose single (hence first, key) token is `omitempty` comes back
with the OmitEmpty flag set, where the claim predicts no flags. -/
theorem C2_counterexample :
    tagsReader [("json", "omitempty")] "json" = ("omitempty", FLAG_OMITEMPTY)
    ∧ FLAG_OMITEMPTY ≠ 0 :=
  ⟨rfl, by decide⟩

/-- **C2, amended.**  For every field descriptor and namespace, `tagsReader`
returns `("", Ignore)` when the namespace is absent from the field's tags;
otherwise it splits the tag value on commas, takes the first token as the
key, and sets each flag exactly when the corresponding reserved option word
(`-`, `omitempty`, `dive`, `wildcard`, `dotted`, matched case-sensitively)
occurs among ALL the tokens — including the first (key) token.
Unrecognized tokens are silently dropped (each flag bit is set only by its
own word), and the parser is a total function that never fails. -/
theorem C2_tagsReader_characterization
    (structField : List (String × String)) (t : String) :
    (structField.lookup t = none →
      tagsReader structField t = ("", FLAG_IGNORE)) ∧
    (∀ v, structField.lookup t = some v →
      (tagsReader structField t).1 = (splitComma v).headD "" ∧
      ((tagsReader structField t).2 &&& FLAG_IGNORE ≠ 0 ↔
        OPTION_IGNORE ∈ splitComma v) ∧
      ((tagsReader structField t).2 &&& FLAG_OMITEMPTY ≠ 0 ↔
        OPTION_OMITEMPTY ∈ splitComma v) ∧
      ((tagsReader structField t).2 &&& FLAG_DIVE ≠ 0 ↔
        OPTION_DIVE ∈ splitComma v) ∧
      ((tagsReader structField t).2 &&& FLAG_WILDCARD ≠ 0 ↔
        OPTION_WILDCARD ∈ splitComma v) ∧
      ((tagsReader structField t).2 &&& FLAG_DOTTED ≠ 0 ↔
        OPTION_DOTTED ∈ splitComma v)) := by
  constructor
  · intro h
    simp [tagsReader, h]
  · intro v hv
    simp only [tagsReader, hv]
    refine ⟨trivial, ?_, ?_, ?_, ?_, ?_⟩
    · exact foldl_optionStep_bit FLAG_IGNORE OPTION_IGNORE (by decide)
        optionStep_other_ignore (splitComma v)
    · exact foldl_optionStep_bit FLAG_OMITEMPTY OPTION_OMITEMPTY (by decide)
        optionStep_other_omitempty (splitComma v)
    · exact foldl_optionStep_bit FLAG_DIVE OPTION_DIVE (by decide)
        optionStep_other_dive (splitComma v)
    · exact foldl_optionStep_bit FLAG_WILDCARD OPTION_WILDCARD (by decide)
        optionStep_other_wildcard (splitComma v)
    · exact foldl_optionStep_bit FLAG_DOTTED OPTION_DOTTED (by decide)
        optionStep_other_dotted (splitComma v)

/-- **C2, witness.**  The characterization applied to a concrete tag. -/
theorem C2_witness :
    tagsReader [("json", "")] "notthere" = ("", FLAG_IGNORE) ∧
    ((tagsReader [("json", "k,dive,junk")] "json").2 &&& FLAG_DIVE ≠ 0 ↔
      OPTION_DIVE ∈ splitComma "k,dive,junk") :=
  ⟨(C2_tagsReader_characterization [("json", "")] "notthere").1 rfl,
   ((C2_tagsReader_characterization [("json", "k,dive,junk")] "json").2
      "k,dive,junk" rfl).2.2.2.1⟩

/-- **C6, counterexample.**  The claim says the hook is a no-op — never
panicking — whenever the value's type does not expose a ZERO-ARGUMENT
method of the given name.  But `assignValueWithMethod` checks only that a
method OF THAT NAME exists (line 199) and then `Call`s it with an empty
argument list (line 215): on a type whose method `M` takes one argument,
the call panics instead of being a no-op. -/
theorem C6_counterexample :
    assignValueWithMethod scBadArity "M"
      = .panicked "reflect: Call with too few input arguments"
    ∧ assignValueWithMethod scBadArity "M" ≠ .ok ("", .gNil) :=
  ⟨rfl, fun h => Outcome.noConfusion h⟩

/-- **C6, amended.**  The override hook is a no-op returning `("", nil,
nil)` when the method name is empty or when the value's type exposes no
method of that name (of any arity).  When a method of that name exists it
is invoked with zero arguments — panicking if the method declares inputs —
and the hook fails with the invalid-override-signature errors exactly when
the output count differs from two (`badOverrideCount`) or the first
output's kind is not string (`badOverrideFirst`); otherwise it returns the
two outputs as the key and the value. -/
theorem C6_override_hook (v : GoValue) (name : String) :
    (assignValueWithMethod v "" = .ok ("", .gNil)) ∧
    (name ≠ "" → MethodTable.find (GoValue.methods v) name = none →
      assignValueWithMethod v name = .ok ("", .gNil)) ∧
    (∀ numIn results, name ≠ "" →
      MethodTable.find (GoValue.methods v) name = some (.mk numIn results) →
      ((numIn ≠ 0 → assignValueWithMethod v name
          = .panicked "reflect: Call with too few input arguments") ∧
       (numIn = 0 → results.length ≠ 2 →
          assignValueWithMethod v name = .err (.badOverrideCount name)) ∧
       (∀ r0 r1, numIn = 0 → results = [r0, r1] →
          ((isStringKind r0 = false →
             assignValueWithMethod v name = .err (.badOverrideFirst name)) ∧
           (∀ s ms0, r0 = .vString s ms0 →
             assignValueWithMethod v name
               = .ok (s, GoValue.interfaceOf r1)))))) := by
  refine ⟨by simp [assignValueWithMethod], ?_, ?_⟩
  · intro hname hfind
    simp [assignValueWithMethod, hname, hfind]
  · intro numIn results hname hfind
    refine ⟨?_, ?_, ?_⟩
    · intro hn
      simp [assignValueWithMethod, hname, hfind, callFunc, hn]
    · intro hn hlen
      subst hn
      rcases results with _ | ⟨r0, _ | ⟨r1, _ | ⟨r2, rest⟩⟩⟩
      · simp [assignValueWithMethod, hname, hfind, callFunc]
      · simp [assignValueWithMethod, hname, hfind, callFunc]
      · simp at hlen
      · simp [assignValueWithMethod, hname, hfind, callFunc]
    · intro r0 r1 hn hres
      subst hn
      subst hres
      constructor
      · intro hns
        cases r0 <;> simp [isStringKind] at hns <;>
          simp [assignValueWithMethod, hname, hfind, callFunc]
      · intro s ms0 hr0
        subst hr0
        simp [assignValueWithMethod, hname, hfind, callFunc]

/-- **C6, witness.**  The amended hook contract applied to the concrete
override value of the spec's scenario. -/
theorem C6_witness :
    assignValueWithMethod scOverride "M"
      = .ok ("custom", GoValue.interfaceOf (.vInt .iNative 42 mtEmpty)) :=
  ((((C6_override_hook scOverride "M").2.2 0
      [.vString "custom" mtEmpty, .vInt .iNative 42 mtEmpty]
      (by decide) rfl).2.2 (.vString "custom" mtEmpty)
      (.vInt .iNative 42 mtEmpty) rfl rfl).2 "custom" mtEmpty rfl)

/-- **C7.**  A field that is unexported, or has no tag under the chosen
namespace, or whose parsed directive has the Ignore flag set (as the tag
`-` does), never contributes any key to the output container, for every
surrounding record, oracle, namespace, override-method name, value and
flag combination: the conversion of the record with the field equals the
conversion of the record without it. -/
theorem C7_ignored_field_contributes_nothing (ord : Oracle) (t m : String)
    (fs1 fs2 : List GoField) (ms : MethodTable) (f : GoField)
    (h : GoField.exported f = false ∨ (GoField.tags f).lookup t = none ∨
      (tagsReader (GoField.tags f) t).2 &&& FLAG_IGNORE ≠ 0) :
    StructToMap ord t m (.vStruct (fs1 ++ f :: fs2) ms)
      = StructToMap ord t m (.vStruct (fs1 ++ fs2) ms) := by
  apply StructToMap_removal
  intro acc
  rcases h with h | h | h
  · exact processOneField_skip_unexported h
  · apply processOneField_skip_ignore
    have htr : tagsReader (GoField.tags f) t = ("", FLAG_IGNORE) := by
      simp [tagsReader, h]
    rw [htr]
    decide
  · exact processOneField_skip_ignore h

/-- **C7, witness.**  An unexported field and a `-`-tagged field vanish
from a concrete conversion. -/
theorem C7_witness :
    StructToMap ordId "json" ""
      (.vStruct [.mk "A" true [("json", "a")] (.vString "x" mtEmpty),
                 .mk "S" false [("json", "s")] (.vString "h" mtEmpty)]
        mtEmpty)
      = StructToMap ordId "json" ""
          (.vStruct [.mk "A" true [("json", "a")] (.vString "x" mtEmpty)]
            mtEmpty) :=
  C7_ignored_field_contributes_nothing ordId "json" ""
    [.mk "A" true [("json", "a")] (.vString "x" mtEmpty)] [] mtEmpty
    (.mk "S" false [("json", "s")] (.vString "h" mtEmpty)) (Or.inl rfl)

/-- **C3.**  For every field value that reaches generic dispatch (the
override hook yielded an empty key): container kinds (slice, array, map,
channel) are stored at the tag key as the opaque raw `reflect.Value` of the
original field value, without inspection; signed integers of any width are
converted via `Int()` to the 64-bit signed representation carrying the same
numeric value; unsigned integers via `Uint()` to 64-bit unsigned; floats
via `Float()` to the 64-bit float (the token is unchanged, the widening
being exact); complex numbers via `Complex()` to the complex pair; booleans
pass through unchanged; strings become `"%" + s + "%"` exactly when the
Wildcard flag is set and are otherwise unchanged; interface values are
unwrapped via `Interface()` to their dynamic value (a nil interface stays
the nil interface). -/
theorem C3_dispatch_kinds (recur : GoValue → Outcome Smap) (ord : Oracle)
    (m tagVal : String) (flag : Nat) (acc : Smap) (gv : GenValue) :
    (∀ ck isNil pid ms,
      assignValueWithMethod (.vContainer ck isNil pid ms) m = .ok ("", gv) →
      dispatchValue recur ord m tagVal flag (.vContainer ck isNil pid ms) acc
        = .ok (Smap.insert acc tagVal
            (.gReflect (.vContainer ck isNil pid ms)))) ∧
    (∀ w n ms, assignValueWithMethod (.vInt w n ms) m = .ok ("", gv) →
      dispatchValue recur ord m tagVal flag (.vInt w n ms) acc
        = .ok (Smap.insert acc tagVal (.gInt64 n))) ∧
    (∀ w n ms, assignValueWithMethod (.vUint w n ms) m = .ok ("", gv) →
      dispatchValue recur ord m tagVal flag (.vUint w n ms) acc
        = .ok (Smap.insert acc tagVal (.gUint64 n))) ∧
    (∀ w bits ms, assignValueWithMethod (.vFloat w bits ms) m = .ok ("", gv) →
      dispatchValue recur ord m tagVal flag (.vFloat w bits ms) acc
        = .ok (Smap.insert acc tagVal (.gFloat64 bits))) ∧
    (∀ w re im ms,
      assignValueWithMethod (.vComplex w re im ms) m = .ok ("", gv) →
      dispatchValue recur ord m tagVal flag (.vComplex w re im ms) acc
        = .ok (Smap.insert acc tagVal (.gComplex128 re im))) ∧
    (∀ b ms, assignValueWithMethod (.vBool b ms) m = .ok ("", gv) →
      dispatchValue recur ord m tagVal flag (.vBool b ms) acc
        = .ok (Smap.insert acc tagVal (.gBool b))) ∧
    (∀ s ms, assignValueWithMethod (.vString s ms) m = .ok ("", gv) →
      flag &&& FLAG_WILDCARD ≠ 0 →
      dispatchValue recur ord m tagVal flag (.vString s ms) acc
        = .ok (Smap.insert acc tagVal (.gString ("%" ++ s ++ "%")))) ∧
    (∀ s ms, assignValueWithMethod (.vString s ms) m = .ok ("", gv) →
      flag &&& FLAG_WILDCARD = 0 →
      dispatchValue recur ord m tagVal flag (.vString s ms) acc
        = .ok (Smap.insert acc tagVal (.gString s))) ∧
    (∀ w ms, assignValueWithMethod (.vIface (some w) ms) m = .ok ("", gv) →
      dispatchValue recur ord m tagVal flag (.vIface (some w) ms) acc
        = .ok (Smap.insert acc tagVal (.gGo w))) ∧
    (∀ ms, assignValueWithMethod (.vIface none ms) m = .ok ("", gv) →
      dispatchValue recur ord m tagVal flag (.vIface none ms) acc
        = .ok (Smap.insert acc tagVal .gNil)) := by
  refine ⟨?_, ?_, ?_, ?_, ?_, ?_, ?_, ?_, ?_, ?_⟩
  · intro ck isNil pid ms hA
    simp [dispatchValue, hA]
  · intro w n ms hA
    simp [dispatchValue, hA]
  · intro w n ms hA
    simp [dispatchValue, hA]
  · intro w bits ms hA
    simp [dispatchValue, hA]
  · intro w re im ms hA
    simp [dispatchValue, hA]
  · intro b ms hA
    simp [dispatchValue, hA]
  · intro s ms hA hw
    simp [dispatchValue, hA, hw]
  · intro s ms hA hw
    simp [dispatchValue, hA, hw]
  · intro w ms hA
    simp [dispatchValue, hA, GoValue.interfaceOf]
  · intro ms hA
    simp [dispatchValue, hA, GoValue.interfaceOf]

/-- **C3, witness.**  An `int8` field value is widened to the 64-bit
signed representation with the same numeric value. -/
theorem C3_witness :
    dispatchValue (StructToMap ordId "json" "") ordId "" "k" 0
      (.vInt .i8 (-5) mtEmpty) [] = .ok [("k", .gInt64 (-5))] :=
  (C3_dispatch_kinds (StructToMap ordId "json" "") ordId "" "k" 0 []
    .gNil).2.1 .i8 (-5) mtEmpty rfl

/-- **C5.**  When the override hook yields a non-empty key, the field's
iteration writes exactly `container[key] = value` and ends: the result is
`Smap.insert acc key value` independently of the recursive converter
`recur`, of the oracle, of the tag key and flags, and of the field value's
kind — so generic dispatch, including nested-record recursion, is bypassed
entirely and contributes no keys (the key set grows by `key` alone).  In
the spec's scenario, an override method returning `("custom", 42)` makes
the one-field conversion produce exactly `custom → 42`. -/
theorem C5_override_bypass (recur : GoValue → Outcome Smap) (ord : Oracle)
    (m tagVal : String) (flag : Nat) (fv : GoValue) (acc : Smap)
    (key : String) (value : GenValue)
    (hA : assignValueWithMethod fv m = .ok (key, value)) (hk : key ≠ "") :
    dispatchValue recur ord m tagVal flag fv acc
      = .ok (Smap.insert acc key value) ∧
    (∀ kk, kk ∈ Smap.keys (Smap.insert acc key value) ↔
      (kk = key ∨ kk ∈ Smap.keys acc)) ∧
    StructToMap ordId "json" "M"
      (.vStruct [.mk "F" true [("json", "f")] scOverride] mtEmpty)
      = .ok [("custom", .gGo (.vInt .iNative 42 mtEmpty))] :=
  ⟨dispatchValue_bypass hA hk,
   fun kk => Smap.mem_keys_insert acc key value kk, rfl⟩

/-- **C5, witness.**  The bypass applied to the scenario's override
value. -/
theorem C5_witness :
    dispatchValue (StructToMap ordId "json" "M") ordId "M" "f" 0 scOverride
      [] = .ok [("custom", .gGo (.vInt .iNative 42 mtEmpty))] :=
  (C5_override_bypass (StructToMap ordId "json" "M") ordId "M" "f" 0
    scOverride [] "custom" (.gGo (.vInt .iNative 42 mtEmpty)) rfl
    (by decide)).1

/-- **C10.**  A resolved field value whose kind has no case in the switch
of lines 114-151 — a pointer whose target is itself a pointer (only one
dereference happens before the switch), a func, a uintptr, or an unsafe
pointer — is silently dropped: its dispatch writes nothing and returns no
error, and removing such a field from the record leaves the whole
conversion unchanged (the rest completes normally). -/
theorem C10_unhandled_kinds_dropped (ord : Oracle) (t : String) :
    (∀ (recur : GoValue → Outcome Smap) (m tagVal : String) (flag : Nat)
        (fv : GoValue) (acc : Smap) (gv : GenValue),
      isUnhandledKind fv = true →
      assignValueWithMethod fv m = .ok ("", gv) →
      dispatchValue recur ord m tagVal flag fv acc = .ok acc) ∧
    (∀ (fs1 fs2 : List GoField) (ms : MethodTable) (f : GoField)
        (fv : GoValue),
      derefOnce (GoField.fval f) = some fv → isUnhandledKind fv = true →
      StructToMap ord t "" (.vStruct (fs1 ++ f :: fs2) ms)
        = StructToMap ord t "" (.vStruct (fs1 ++ fs2) ms)) := by
  constructor
  · intro recur m tagVal flag fv acc gv hu hA
    exact dispatchValue_unhandled hu hA
  · intro fs1 fs2 ms f fv hderef hu
    apply StructToMap_removal
    intro acc
    obtain ⟨n, ex, tg, v⟩ := f
    simp only [GoField.fval] at hderef
    by_cases hex : ex = false
    · exact processOneField_skip_unexported (by simp [GoField.exported, hex])
    · have hext : ex = true := by
        cases ex
        · exact absurd rfl hex
        · rfl
      subst hext
      rcases htr : tagsReader tg t with ⟨tv, fl⟩
      by_cases hig : fl &&& FLAG_IGNORE ≠ 0
      · apply processOneField_skip_ignore
        simp only [GoField.tags, htr]
        exact hig
      · by_cases hom : fl &&& FLAG_OMITEMPTY ≠ 0 ∧ GoValue.isZero v = true
        · apply processOneField_skip_omitzero
          · simp only [GoField.tags, htr]
            exact hom.1
          · simp only [GoField.fval]
            exact hom.2
        · show processOneField (StructToMap ord t "") ord t ""
            (.mk n true tg v) acc = .ok acc
          rw [processOneField_main htr (not_ne_iff.mp hig) hom]
          cases v with
          | vPointer o pms =>
            cases o with
            | none => rfl
            | some w =>
              simp only [derefOnce, Option.some.injEq] at hderef
              subst hderef
              exact dispatchValue_unhandled hu rfl
          | vFunc bb p fms =>
            simp only [derefOnce, Option.some.injEq] at hderef
            subst hderef
            exact dispatchValue_unhandled hu rfl
          | vUintptr p fms =>
            simp only [derefOnce, Option.some.injEq] at hderef
            subst hderef
            exact dispatchValue_unhandled hu rfl
          | vUnsafePtr bb p fms =>
            simp only [derefOnce, Option.some.injEq] at hderef
            subst hderef
            exact dispatchValue_unhandled hu rfl
          | vInvalid =>
            simp only [derefOnce, Option.some.injEq] at hderef
            subst hderef
            exact dispatchValue_unhandled hu rfl
          | vStruct gs gms =>
            simp only [derefOnce, Option.some.injEq] at hderef
            subst hderef
            simp [isUnhandledKind] at hu
          | vInt w n2 ims =>
            simp only [derefOnce, Option.some.injEq] at hderef
            subst hderef
            simp [isUnhandledKind] at hu
          | vUint w n2 ims =>
            simp only [derefOnce, Option.some.injEq] at hderef
            subst hderef
            simp [isUnhandledKind] at hu
          | vFloat w bits ims =>
            simp only [derefOnce, Option.some.injEq] at hderef
            subst hderef
            simp [isUnhandledKind] at hu
          | vComplex w re im ims =>
            simp only [derefOnce, Option.some.injEq] at hderef
            subst hderef
            simp [isUnhandledKind] at hu
          | vString s2 ims =>
            simp only [derefOnce, Option.some.injEq] at hderef
            subst hderef
            simp [isUnhandledKind] at hu
          | vBool b2 ims =>
            simp only [derefOnce, Option.some.injEq] at hderef
            subst hderef
            simp [isUnhandledKind] at hu
          | vContainer ck isNil pid ims =>
            simp only [derefOnce, Option.some.injEq] at hderef
            subst hderef
            simp [isUnhandledKind] at hu
          | vIface o ims =>
            simp only [derefOnce, Option.some.injEq] at hderef
            subst hderef
            simp [isUnhandledKind] at hu

/-- **C10, witness.**  A func-valued field and a pointer-to-pointer field
are silently dropped from a concrete conversion. -/
theorem C10_witness :
    StructToMap ordId "json" ""
      (.vStruct ([.mk "A" true [("json", "a")] (.vString "x" mtEmpty)] ++
        .mk "PP" true [("json", "pp")]
          (.vPointer (some (.vPointer (some (.vString "y" mtEmpty)) mtEmpty))
            mtEmpty) :: []) mtEmpty)
      = StructToMap ordId "json" ""
          (.vStruct ([.mk "A" true [("json", "a")] (.vString "x" mtEmpty)]
            ++ []) mtEmpty) :=
  (C10_unhandled_kinds_dropped ordId "json").2
    [.mk "A" true [("json", "a")] (.vString "x" mtEmpty)] [] mtEmpty
    (.mk "PP" true [("json", "pp")]
      (.vPointer (some (.vPointer (some (.vString "y" mtEmpty)) mtEmpty))
        mtEmpty))
    (.vPointer (some (.vString "y" mtEmpty)) mtEmpty) rfl rfl

/-- The main path of a string field with the override hook disabled: the
value is written at the tag key, `%`-wrapped exactly under the Wildcard
flag. -/
theorem fieldStep_string {ord : Oracle} {t : String} {n : String}
    {tg : List (String × String)} {s : String} {sms : MethodTable}
    {acc : Smap} {tv : String} {fl : Nat}
    (htr : tagsReader tg t = (tv, fl)) (hig : fl &&& FLAG_IGNORE = 0)
    (hs : s ≠ "") :
    fieldStep ord t "" (.mk n true tg (.vString s sms)) acc
      = .ok (Smap.insert acc tv
          (if fl &&& FLAG_WILDCARD ≠ 0 then GenValue.gString ("%" ++ s ++ "%")
           else GenValue.gString s)) := by
  show processOneField (StructToMap ord t "") ord t ""
    (.mk n true tg (.vString s sms)) acc = _
  rw [processOneField_main htr hig (by simp [GoValue.isZero, hs])]
  by_cases hw : fl &&& FLAG_WILDCARD ≠ 0
  · simp [dispatchValue, assignValueWithMethod, hw]
  · simp [dispatchValue, assignValueWithMethod, hw]

/-- **C8.**  OmitIfEmpty and pointer handling: a field whose directive has
the OmitIfEmpty flag and whose value is the zero value of its type
contributes no key (removing it leaves the conversion unchanged); a
non-ignored `omitempty` string field with a non-zero value does contribute
its tag key to a successful result; a nil pointer field contributes no key
regardless of OmitIfEmpty and of every other flag; and a non-nil pointer
field is dereferenced exactly once before dispatch, its iteration equalling
generic dispatch on the pointer's target. -/
theorem C8_omitempty_zero_and_nil_pointer (ord : Oracle) (t m : String)
    (fs1 fs2 : List GoField) (ms : MethodTable) :
    (∀ f, (tagsReader (GoField.tags f) t).2 &&& FLAG_OMITEMPTY ≠ 0 →
      GoValue.isZero (GoField.fval f) = true →
      StructToMap ord t m (.vStruct (fs1 ++ f :: fs2) ms)
        = StructToMap ord t m (.vStruct (fs1 ++ fs2) ms)) ∧
    (∀ n tg sms s tv fl res, tagsReader tg t = (tv, fl) →
      fl &&& FLAG_IGNORE = 0 → fl &&& FLAG_OMITEMPTY ≠ 0 → s ≠ "" →
      StructToMap ord t ""
        (.vStruct (fs1 ++ .mk n true tg (.vString s sms) :: fs2) ms)
        = .ok res →
      tv ∈ Smap.keys res) ∧
    (∀ f pms, GoField.fval f = .vPointer none pms →
      StructToMap ord t m (.vStruct (fs1 ++ f :: fs2) ms)
        = StructToMap ord t m (.vStruct (fs1 ++ fs2) ms)) ∧
    (∀ n tg w pms acc tv fl, tagsReader tg t = (tv, fl) →
      fl &&& FLAG_IGNORE = 0 →
      fieldStep ord t m (.mk n true tg (.vPointer (some w) pms)) acc
        = dispatchValue (StructToMap ord t m) ord m tv fl w acc) := by
  refine ⟨?_, ?_, ?_, ?_⟩
  · intro f hom hz
    exact StructToMap_removal fs1 fs2 ms
      (fun acc => processOneField_skip_omitzero hom hz)
  · intro n tg sms s tv fl res htr hig hom hs hres
    rw [StructToMap_struct, structLoop_append] at hres
    cases h1 : structLoop (fieldStep ord t "") fs1 [] with
    | ok acc =>
      rw [h1] at hres
      simp only [] at hres
      rw [structLoop_cons, fieldStep_string htr hig hs] at hres
      simp only [] at hres
      refine structLoop_keys
        (fun g a r hk hstep => processOneField_ok_keys hk hstep)
        ?_ hres
      exact Smap.self_mem_keys_insert acc tv _
    | err e =>
      rw [h1] at hres
      exact Outcome.noConfusion hres
    | panicked s' =>
      rw [h1] at hres
      exact Outcome.noConfusion hres
  · intro f pms hval
    obtain ⟨n, ex, tg, v⟩ := f
    simp only [GoField.fval] at hval
    subst hval
    exact StructToMap_removal fs1 fs2 ms
      (fun acc => processOneField_skip_nilptr)
  · intro n tg w pms acc tv fl htr hig
    exact processOneField_deref htr hig

/-- **C8, witness.**  The four parts applied to concrete fields: a zero
`omitempty` string vanishes, a non-zero one is present, a nil pointer
vanishes, a non-nil pointer is dereferenced once. -/
theorem C8_witness :
    (StructToMap ordId "json" ""
        (.vStruct ([] ++ .mk "O" true [("json", "o,omitempty")]
          (.vString "" mtEmpty) :: []) mtEmpty)
      = StructToMap ordId "json" "" (.vStruct ([] ++ []) mtEmpty)) ∧
    ("o" ∈ Smap.keys [("o", GenValue.gString "x")]) ∧
    (StructToMap ordId "json" ""
        (.vStruct ([] ++ .mk "P" true [("json", "p")]
          (.vPointer none mtEmpty) :: []) mtEmpty)
      = StructToMap ordId "json" "" (.vStruct ([] ++ []) mtEmpty)) ∧
    (fieldStep ordId "json" ""
        (.mk "Q" true [("json", "q")]
          (.vPointer (some (.vString "z" mtEmpty)) mtEmpty)) []
      = dispatchValue (StructToMap ordId "json" "") ordId "" "q" 0
          (.vString "z" mtEmpty) []) :=
  ⟨(C8_omitempty_zero_and_nil_pointer ordId "json" "" [] [] mtEmpty).1
      (.mk "O" true [("json", "o,omitempty")] (.vString "" mtEmpty))
      (by decide) rfl,
   (C8_omitempty_zero_and_nil_pointer ordId "json" "" [] [] mtEmpty).2.1
      "O" [("json", "o,omitempty")] mtEmpty "x" "o" FLAG_OMITEMPTY
      [("o", GenValue.gString "x")] rfl (by decide) (by decide) (by decide)
      rfl,
   (C8_omitempty_zero_and_nil_pointer ordId "json" "" [] [] mtEmpty).2.2.1
      (.mk "P" true [("json", "p")] (.vPointer none mtEmpty)) mtEmpty rfl,
   (C8_omitempty_zero_and_nil_pointer ordId "json" "" [] [] mtEmpty).2.2.2
      "Q" [("json", "q")] (.vString "z" mtEmpty) mtEmpty [] "q" 0 rfl
      (by decide)⟩

/-- **C1.**  A nested record field that reaches generic dispatch is
converted by the recursive call `StructToMap ord t m` itself — the same
namespace `t` and the same override-method name `m` — and its result `sub`
is composed into the parent according to the flags: with Dive set, every
entry of `sub` is merged directly into the parent accumulator (in `range`
order), so every nested key appears in the parent; with Dotted set (and
Dive clear), every entry is merged under `tagVal ++ "." ++ k`; with neither
flag, the whole nested result is stored as the single submap value at
`tagVal`.  The spec's two scenarios evaluate to exactly
`{"aa": "x", "c": "y"}` (dive) and `{"aa": "x", "b.c": "y"}` (dotted). -/
theorem C1_nested_composition (ord : Oracle) (t m tagVal : String)
    (flag : Nat) (fs : List GoField) (sms : MethodTable) (acc sub : Smap)
    (gv : GenValue)
    (hA : assignValueWithMethod (.vStruct fs sms) m = .ok ("", gv))
    (hrec : StructToMap ord t m (.vStruct fs sms) = .ok sub) :
    (flag &&& FLAG_DIVE ≠ 0 →
      dispatchValue (StructToMap ord t m) ord m tagVal flag (.vStruct fs sms)
          acc = .ok (Smap.foldIns acc (ord sub)) ∧
      ∀ k v, (k, v) ∈ ord sub →
        k ∈ Smap.keys (Smap.foldIns acc (ord sub))) ∧
    (flag &&& FLAG_DIVE = 0 → flag &&& FLAG_DOTTED ≠ 0 →
      dispatchValue (StructToMap ord t m) ord m tagVal flag (.vStruct fs sms)
          acc = .ok (Smap.foldIns acc
            ((ord sub).map (fun kv => (tagVal ++ "." ++ kv.1, kv.2)))) ∧
      ∀ k v, (k, v) ∈ ord sub →
        (tagVal ++ "." ++ k) ∈ Smap.keys (Smap.foldIns acc
          ((ord sub).map (fun kv => (tagVal ++ "." ++ kv.1, kv.2))))) ∧
    (flag &&& FLAG_DIVE = 0 → flag &&& FLAG_DOTTED = 0 →
      dispatchValue (StructToMap ord t m) ord m tagVal flag (.vStruct fs sms)
          acc = .ok (Smap.insert acc tagVal (.gMap sub))) ∧
    StructToMap ordId "json" "" (scRecord "b,dive")
      = .ok [("aa", .gString "x"), ("c", .gString "y")] ∧
    StructToMap ordId "json" "" (scRecord "b,dotted")
      = .ok [("aa", .gString "x"), ("b.c", .gString "y")] := by
  refine ⟨?_, ?_, ?_, rfl, rfl⟩
  · intro hdive
    refine ⟨?_, fun k v hm => Smap.mem_keys_foldIns_of_mem (ord sub) acc hm⟩
    simp [dispatchValue, hA, hrec, hdive, Smap.foldIns]
  · intro hdive hdot
    have hstep : dispatchValue (StructToMap ord t m) ord m tagVal flag
        (.vStruct fs sms) acc
        = .ok ((ord sub).foldl
            (fun r kv => Smap.insert r (tagVal ++ "." ++ kv.1) kv.2) acc) := by
      simp [dispatchValue, hA, hrec, hdive, hdot]
    refine ⟨?_, fun k v hm =>
      Smap.mem_keys_foldIns_of_mem _ acc
        (List.mem_map_of_mem (fun kv => (tagVal ++ "." ++ kv.1, kv.2)) hm)⟩
    rw [hstep, dotted_fold_eq_foldIns]
  · intro hdive hdot
    simp [dispatchValue, hA, hrec, hdive, hdot]

/-- **C1, witness.**  The dive composition applied to the spec's inner
record, merged into a parent accumulator that already holds `aa`. -/
theorem C1_witness :
    dispatchValue (StructToMap ordId "json" "") ordId "" "b" FLAG_DIVE
      scInner [("aa", GenValue.gString "x")]
      = .ok (Smap.foldIns [("aa", GenValue.gString "x")]
          (ordId [("c", GenValue.gString "y")])) :=
  ((C1_nested_composition ordId "json" "" "b" FLAG_DIVE
      [.mk "C" true [("json", "c")] (.vString "y" mtEmpty)] mtEmpty
      [("aa", GenValue.gString "x")] [("c", GenValue.gString "y")]
      .gNil rfl rfl).1 (by decide)).1

/-- An error outcome of `StructToMap` under the not-a-struct validation:
the carried error is exactly the not-a-struct error of the resolved
kind. -/
theorem StructToMap_err_nonstruct {ord : Oracle} {t m : String}
    {data w : GoValue} {e : GoError}
    (h : StructToMap ord t m data = .err e)
    (hd : derefOnce data = some w) (hns : isStructKind w = false) :
    e = .notAStruct (kindString w) := by
  rw [StructToMap_not_struct hd hns] at h
  injection h with h
  exact h.symm

/-- Every error outcome of `StructToMap` is classified: the nil-pointer
error on a nil pointer input, the not-a-struct error on an input that does
not resolve to a struct, or a malformed-override-signature error arising
inside the field loop. -/
theorem StructToMap_err_classified {ord : Oracle} {t m : String}
    {data : GoValue} {e : GoError}
    (h : StructToMap ord t m data = .err e) :
    (∃ pms, data = .vPointer none pms ∧ e = .nilInput "ptr") ∨
    (∃ w, derefOnce data = some w ∧ isStructKind w = false ∧
      e = .notAStruct (kindString w)) ∨
    OverrideErr e := by
  cases data
  case vPointer o pms =>
    cases o with
    | none =>
      rw [StructToMap_nil_ptr] at h
      injection h with h
      exact Or.inl ⟨pms, rfl, h.symm⟩
    | some w =>
      cases w
      case vStruct gs gms =>
        refine Or.inr (Or.inr ?_)
        rw [StructToMap_ptr_struct, ← StructToMap_struct ord t m gs gms] at h
        exact goSM_struct_err (GoValue.size (GoValue.vStruct gs gms))
          ord t m gs gms e h
      all_goals
        exact Or.inr (Or.inl ⟨_, rfl, rfl, StructToMap_err_nonstruct h rfl rfl⟩)
  case vStruct fs ms =>
    exact Or.inr (Or.inr (goSM_struct_err
      (GoValue.size (GoValue.vStruct fs ms)) ord t m fs ms e h))
  all_goals
    exact Or.inr (Or.inl ⟨_, rfl, rfl, StructToMap_err_nonstruct h rfl rfl⟩)

/-- **C4.**  Error semantics of the conversion: a nil pointer input fails
with the nil-pointer error and an input not resolving to a struct (after
at most one dereference) fails with the not-a-struct error; conversely,
whenever the conversion fails with one of those two errors the input was of
the corresponding shape (any error arising past validation is a
malformed-override-signature error); a nested conversion error is
propagated verbatim through dispatch; and any per-field error aborts the
whole call fail-fast, the outcome being exactly that error and no partial
container. -/
theorem C4_error_semantics (ord : Oracle) (t m : String) :
    (∀ pms, StructToMap ord t m (.vPointer none pms)
      = .err (.nilInput "ptr")) ∧
    (∀ data w, derefOnce data = some w → isStructKind w = false →
      StructToMap ord t m data = .err (.notAStruct (kindString w))) ∧
    (∀ data e, StructToMap ord t m data = .err e →
      ((∃ s, e = .nilInput s) → ∃ pms, data = .vPointer none pms) ∧
      ((∃ s, e = .notAStruct s) →
        ∃ w, derefOnce data = some w ∧ isStructKind w = false)) ∧
    (∀ (recur : GoValue → Outcome Smap) (tagVal : String) (flag : Nat)
        (fs : List GoField) (sms : MethodTable) (acc : Smap) (gv : GenValue)
        (e : GoError),
      assignValueWithMethod (.vStruct fs sms) m = .ok ("", gv) →
      recur (.vStruct fs sms) = .err e →
      dispatchValue recur ord m tagVal flag (.vStruct fs sms) acc
        = .err e) ∧
    (∀ (fs1 fs2 : List GoField) (ms : MethodTable) (f : GoField)
        (acc : Smap) (e : GoError),
      structLoop (fieldStep ord t m) fs1 [] = .ok acc →
      fieldStep ord t m f acc = .err e →
      StructToMap ord t m (.vStruct (fs1 ++ f :: fs2) ms) = .err e) := by
  refine ⟨?_, ?_, ?_, ?_, ?_⟩
  · intro pms
    exact StructToMap_nil_ptr ord t m pms
  · intro data w hd hns
    exact StructToMap_not_struct hd hns ord t m
  · intro data e h
    rcases StructToMap_err_classified h with ⟨pms, rfl, rfl⟩ |
      ⟨w, hd, hns, rfl⟩ | ho
    · constructor
      · intro _
        exact ⟨pms, rfl⟩
      · rintro ⟨s, hs⟩
        exact GoError.noConfusion hs
    · constructor
      · rintro ⟨s, hs⟩
        exact GoError.noConfusion hs
      · intro _
        exact ⟨w, hd, hns⟩
    · constructor
      · rintro ⟨s, hs⟩
        rcases ho with ⟨s2, h2⟩ | ⟨s2, h2⟩ <;> rw [h2] at hs <;>
          exact GoError.noConfusion hs
      · rintro ⟨s, hs⟩
        rcases ho with ⟨s2, h2⟩ | ⟨s2, h2⟩ <;> rw [h2] at hs <;>
          exact GoError.noConfusion hs
  · intro recur tagVal flag fs sms acc gv e hA hrec
    simp [dispatchValue, hA, hrec]
  · intro fs1 fs2 ms f acc e h1 h2
    exact StructToMap_prefix_err h1 h2

/-- **C4, witness.**  The nil-pointer error, the not-a-struct error on an
integer input, and the exactness direction applied to that error. -/
theorem C4_witness :
    (StructToMap ordId "json" "" (.vPointer none mtEmpty)
      = .err (.nilInput "ptr")) ∧
    (StructToMap ordId "json" "" (.vInt .iNative 3 mtEmpty)
      = .err (.notAStruct "int")) ∧
    (∃ w, derefOnce (GoValue.vInt .iNative 3 mtEmpty) = some w ∧
      isStructKind w = false) :=
  ⟨(C4_error_semantics ordId "json" "").1 mtEmpty,
   (C4_error_semantics ordId "json" "").2.1 (.vInt .iNative 3 mtEmpty)
     (.vInt .iNative 3 mtEmpty) rfl rfl,
   ((C4_error_semantics ordId "json" "").2.2.1 (.vInt .iNative 3 mtEmpty)
     (.notAStruct "int") rfl).2 ⟨"int", rfl⟩⟩

/-- **C9.**  The conversion is a pure function of its input: the embedding
takes the record by value and returns a fresh container, so the input is
never mutated, and the only nondeterminism in the source — the randomized
`range` order over nested results in the dive/dotted merge loops — is
irrelevant: any two admissible iteration orders (any functions whose output
is a permutation of the entries) produce identical outcomes, hence
identical key sets and identical values at every key on success.  Repeated
calls with identical inputs therefore agree. -/
theorem C9_determinism {ord1 ord2 : Oracle} (hv1 : ValidOracle ord1)
    (hv2 : ValidOracle ord2) (t m : String) (data : GoValue) :
    StructToMap ord1 t m data = StructToMap ord2 t m data ∧
    (∀ res1 res2, StructToMap ord1 t m data = .ok res1 →
      StructToMap ord2 t m data = .ok res2 →
      Smap.keys res1 = Smap.keys res2 ∧
        ∀ k, Smap.find res1 k = Smap.find res2 k) := by
  have he := StructToMap_ord hv1 hv2 t m data
  refine ⟨he, ?_⟩
  intro res1 res2 h1 h2
  rw [he, h2] at h1
  injection h1 with h1
  subst h1
  exact ⟨rfl, fun k => rfl⟩

/-- **C9, witness.**  Identity order and reversed order agree on the
spec's dive scenario. -/
theorem C9_witness :
    StructToMap ordId "json" "" (scRecord "b,dive")
      = StructToMap revOracle "json" "" (scRecord "b,dive") :=
  (C9_determinism (fun l => List.Perm.refl l)
    (fun l => List.reverse_perm l) "json" "" (scRecord "b,dive")).1

end Structmap
